import Mathlib

/-!
Verification of the World-of-Bits grid game (src/src/main.ts, final version).

The embedding models the core state of the game: the coordinate mapper,
the deterministic token generator, the flyweight/memento cell store, the
viewport spawn/despawn scheduler, the click interaction engine, player
movement, and the localStorage persistence codec.

Modelling conventions:
* JS numbers are modelled as rationals (exact real arithmetic; IEEE-754
  rounding is not modelled).
* JS `Map<string, T>` keyed by the cell-key string `"i,j"` is modelled as an
  insertion-ordered association list keyed by the pair (i, j); the key string
  is produced by the injective function (i, j) ↦ s!"{i},{j}", so the two
  keyings are equivalent.  `Map.set` updates an existing entry in place and
  appends fresh keys, matching JS insertion-order semantics.
* Rendering objects (Leaflet rectangles, markers, labels, styles) and the
  DOM are outside the core state and are dropped from `Cell`.
* The hash `luck` is imported by main.ts from `_luck.ts`, which is not part
  of the sources; it is kept abstract (see `naturalTok`).
-/

/- Batteries marks the rational-number operations irreducible, which stops
`decide` from evaluating concrete game states; restore normal reducibility
so that witnesses and counterexamples can be checked by evaluation. -/
set_option allowUnsafeReducibility true in
attribute [semireducible] Rat.add Rat.mul Rat.sub Rat.div Rat.neg Rat.inv

namespace WorldOfBits

/-- `TILE_DEGREES = 1e-4`, the tile size in degrees (main.ts line 434). -/
def TILE_DEGREES : ℚ := 1 / 10000

/-- A cell identifier: the pair (i, j) of signed integers (interface CellId). -/
abbrev CellKey := ℤ × ℤ

/-- `cellKey(i, j)` (main.ts line 575): the map key for cell (i, j).
The source builds the string `"i,j"`; since that string determines and is
determined by the pair, the key is modelled as the pair itself. -/
def cellKey (i j : ℤ) : CellKey := (i, j)

section AssocMap

variable {K : Type} {V : Type} [DecidableEq K]

/-- `Map.get`: the value stored for a key, if any (first matching entry). -/
def mapGet : List (K × V) → K → Option V
  | [], _ => none
  | p :: rest, k => if p.1 = k then some p.2 else mapGet rest k

/-- `Map.set`: update an existing entry in place, or append a fresh one
(JS `Map` keeps the original insertion position of an existing key; keys of a
`Map` are unique, so updating the first occurrence is the same). -/
def mapSet : List (K × V) → K → V → List (K × V)
  | [], k, v => [(k, v)]
  | p :: rest, k, v => if p.1 = k then (k, v) :: rest else p :: mapSet rest k v

/-- `Map.delete`: remove the entry for a key. -/
def mapDelete (m : List (K × V)) (k : K) : List (K × V) :=
  m.filter (fun p => p.1 ≠ k)

@[simp]
theorem mapGet_nil (k : K) : mapGet ([] : List (K × V)) k = none := rfl

@[simp]
theorem mapGet_cons (p : K × V) (rest : List (K × V)) (k : K) :
    mapGet (p :: rest) k = if p.1 = k then some p.2 else mapGet rest k := rfl

theorem mapGet_mapSet (m : List (K × V)) (k k' : K) (v : V) :
    mapGet (mapSet m k v) k' = if k' = k then some v else mapGet m k' := by
  induction m with
  | nil =>
      by_cases hk : k' = k
      · simp [mapSet, hk]
      · have hk2 : ¬ k = k' := fun h => hk h.symm
        simp [mapSet, hk, hk2]
  | cons p rest ih =>
      by_cases hp : p.1 = k
      · by_cases hk : k' = k
        · simp [mapSet, hp, hk]
        · have hk2 : ¬ k = k' := fun h => hk h.symm
          have hp' : ¬ p.1 = k' := by
            intro h
            exact hk2 (by rw [← hp]; exact h)
          simp [mapSet, hp, hk, hk2, hp']
      · by_cases hp' : p.1 = k'
        · have hk : ¬ k' = k := fun h => hp (h ▸ hp')
          simp [mapSet, hp, hp', hk]
        · simp [mapSet, hp, hp', ih]

theorem mapGet_mapDelete (m : List (K × V)) (k k' : K) :
    mapGet (mapDelete m k) k' = if k' = k then none else mapGet m k' := by
  induction m with
  | nil => simp [mapDelete]
  | cons p rest ih =>
      by_cases hp : p.1 = k
      · have : mapDelete (p :: rest) k = mapDelete rest k := by
          simp [mapDelete, hp]
        rw [this, ih]
        by_cases hk : k' = k
        · simp [hk]
        · have hp' : ¬ p.1 = k' := by
            intro h
            exact hk (by rw [← h]; exact hp)
          simp [hk, hp']
      · have : mapDelete (p :: rest) k = p :: mapDelete rest k := by
          simp [mapDelete, hp]
        rw [this]
        by_cases hp' : p.1 = k'
        · have hk : ¬ k' = k := fun h => hp (h ▸ hp')
          simp [hp', hk]
        · simp only [mapGet_cons, if_neg hp']
          exact ih

theorem mapGet_mem {m : List (K × V)} {k : K} {v : V} (h : mapGet m k = some v) :
    (k, v) ∈ m := by
  induction m with
  | nil => simp at h
  | cons p rest ih =>
      by_cases hp : p.1 = k
      · simp only [mapGet_cons, if_pos hp] at h
        have hpe : p = (k, v) := by
          obtain ⟨p1, p2⟩ := p
          simp only at hp
          simp only [Option.some.injEq] at h
          rw [hp, h]
        rw [← hpe]
        exact List.mem_cons_self p rest
      · simp only [mapGet_cons, if_neg hp] at h
        exact List.mem_cons_of_mem _ (ih h)

theorem mem_mapSet {m : List (K × V)} {k : K} {v : V} {p : K × V}
    (h : p ∈ mapSet m k v) : p ∈ m ∨ p = (k, v) := by
  induction m with
  | nil =>
      right
      simpa [mapSet] using h
  | cons q rest ih =>
      by_cases hq : q.1 = k
      · simp only [mapSet, if_pos hq] at h
        rcases List.mem_cons.mp h with h1 | h1
        · exact Or.inr h1
        · exact Or.inl (List.mem_cons_of_mem _ h1)
      · simp only [mapSet, if_neg hq] at h
        rcases List.mem_cons.mp h with h1 | h1
        · rw [h1]
          exact Or.inl (List.mem_cons_self q rest)
        · rcases ih h1 with h2 | h2
          · exact Or.inl (List.mem_cons_of_mem _ h2)
          · exact Or.inr h2

/-- A lookup in a filtered list succeeds with the original entry whenever the
entry found by the unfiltered lookup passes the filter. -/
theorem mapGet_filter_of_mapGet {m : List (K × V)} {k : K} {v : V} {f : K × V → Bool}
    (h : mapGet m k = some v) (hf : f (k, v) = true) :
    mapGet (m.filter f) k = some v := by
  induction m with
  | nil => simp at h
  | cons p rest ih =>
      by_cases hp : p.1 = k
      · simp only [mapGet_cons, if_pos hp] at h
        have hpkv : p = (k, v) := by
          cases p; cases h; cases hp; rfl
        subst hpkv
        simp [List.filter, hf]
      · simp only [mapGet_cons, if_neg hp] at h
        by_cases hfp : f p = true
        · simp only [List.filter_cons_of_pos hfp, mapGet_cons, if_neg hp]
          exact ih h
        · simp only [List.filter_cons_of_neg (by simpa using hfp)]
          exact ih h

/-- Whatever a lookup finds in a filtered list passes the filter. -/
theorem filter_pred_of_mapGet {m : List (K × V)} {k : K} {v : V} {f : K × V → Bool}
    (h : mapGet (m.filter f) k = some v) : f (k, v) = true := by
  have hmem : (k, v) ∈ m.filter f := mapGet_mem h
  exact (List.mem_filter.mp hmem).2

end AssocMap

/-! ## Coordinate mapper (main.ts lines 580-601) -/

/-- `latLngToCellId` (lines 580-584): `i = floor(lat / TILE_DEGREES)`,
`j = floor(lng / TILE_DEGREES)`. -/
def latLngToCellId (p : ℚ × ℚ) : CellKey :=
  (⌊p.1 / TILE_DEGREES⌋, ⌊p.2 / TILE_DEGREES⌋)

/-- `cellCenter` (lines 596-601): the midpoint
`((i + 0.5) * TILE_DEGREES, (j + 0.5) * TILE_DEGREES)` of a cell's bounds. -/
def cellCenter (i j : ℤ) : ℚ × ℚ :=
  (((i : ℚ) + 1/2) * TILE_DEGREES, ((j : ℚ) + 1/2) * TILE_DEGREES)

/-- `cellIdToBounds` (lines 587-593): southwest and northeast corners. -/
def cellIdToBounds (c : CellKey) : (ℚ × ℚ) × (ℚ × ℚ) :=
  (((c.1 : ℚ) * TILE_DEGREES, (c.2 : ℚ) * TILE_DEGREES),
   (((c.1 : ℚ) + 1) * TILE_DEGREES, ((c.2 : ℚ) + 1) * TILE_DEGREES))

/-- Converting a cell center back to a cell identifier recovers the cell. -/
theorem latLngToCellId_center (i j : ℤ) :
    latLngToCellId (cellCenter i j) = (i, j) := by
  unfold latLngToCellId cellCenter TILE_DEGREES
  have hne : (1 / 10000 : ℚ) ≠ 0 := by norm_num
  have h1 : (((i : ℚ) + 1/2) * (1/10000)) / (1/10000) = (i : ℚ) + 1/2 :=
    mul_div_cancel_right₀ _ hne
  have h2 : (((j : ℚ) + 1/2) * (1/10000)) / (1/10000) = (j : ℚ) + 1/2 :=
    mul_div_cancel_right₀ _ hne
  have hfloor : ∀ n : ℤ, ⌊(n : ℚ) + 1/2⌋ = n := by
    intro n
    rw [add_comm, Int.floor_add_int]
    norm_num
  simp only [h1, h2, hfloor]

/-- C7: for every CellId (i, j), converting the cell's center back to a cell
identifier returns (i, j): `toCellId(cellCenter(c)) == c`. -/
theorem roundTrip_cellCenter (i j : ℤ) :
    latLngToCellId (cellCenter i j) = (i, j) :=
  latLngToCellId_center i j

/-! ## Deterministic generator (main.ts lines 621-626)

`luck` is imported from `./_luck.ts`, which is not among the sources; per the
spec it is a deterministic hash from a string key to [0, 1).  It is kept
abstract as a parameter `luck : String → ℚ`.  The composite generator
(hash → optional token) is what the rest of the program consumes, so the cell
store and scheduler below are parametrized directly by a generator
`nat : ℤ → ℤ → Option ℚ`; `naturalTok luck` is the instance the program uses.
-/

/-- The key string `[i, j, salt].toString()` = `"i,j,salt"` fed to `luck`. -/
def luckKey (i j : ℤ) (salt : String) : String :=
  toString i ++ "," ++ toString j ++ "," ++ salt

/-- The natural (unmodified) token of cell (i, j), from main.ts lines 621-626:
a token exists iff `luck([i,j,"hasToken"]) < 0.3`, and its value is
`[1,2,4][floor(luck([i,j,"token"]) * 3)]`.  (For a hash value in [0,1) the
index is 0, 1 or 2; the `getD` default covers the out-of-range index that a
hash outside [0,1) would produce, where the JS expression is `undefined`.) -/
def naturalTok (luck : String → ℚ) (i j : ℤ) : Option ℚ :=
  if luck (luckKey i j "hasToken") < 3/10 then
    some (([1, 2, 4] : List ℚ).getD (⌊luck (luckKey i j "token") * 3⌋).toNat 0)
  else
    none

/-! ## Cell store and game state -/

/-- A materialized cell (type `Cell`, main.ts lines 511-517); the Leaflet
rectangle and label are rendering handles and are not part of the core state. -/
structure Cell where
  i : ℤ
  j : ℤ
  token : Option ℚ
deriving DecidableEq, Repr

/-- A memento for a modified cell (interface `CellMemento`, lines 520-524). -/
structure CellMemento where
  i : ℤ
  j : ℤ
  token : Option ℚ
deriving DecidableEq, Repr

/-- The core game state: the player's single-slot inventory and continuous
position, the flyweight map of currently materialized cells, and the memento
map of modified cells (main.ts lines 464, 458, 527, 530).  `localStorage` and
all rendering state are outside. -/
structure GameState where
  playerInventory : Option ℚ
  playerPos : ℚ × ℚ
  flyweightCells : List (CellKey × Cell)
  cellMementos : List (CellKey × CellMemento)
deriving DecidableEq, Repr

/-- `saveCellMemento` (lines 732-740): store the cell's current state under
its key.  (The trailing `saveGameState()` persistence call writes a snapshot
of the whole state to localStorage and does not change the core state.) -/
def saveCellMemento (c : Cell) (mem : List (CellKey × CellMemento)) :
    List (CellKey × CellMemento) :=
  mapSet mem (cellKey c.i c.j) ⟨c.i, c.j, c.token⟩

/-- `isCellModified` (lines 743-757): a cell is modified if it already has a
memento, or if its current token differs from the naturally generated one. -/
def isCellModified (nat : ℤ → ℤ → Option ℚ) (mem : List (CellKey × CellMemento))
    (c : Cell) : Bool :=
  (mapGet mem (cellKey c.i c.j)).isSome || decide (c.token ≠ nat c.i c.j)

/-- `spawnCell` (lines 604-645), state part: materialize cell (i, j), taking
its token from the memento if one exists and from the generator otherwise.
(The rectangle, label and `refreshCellVisual` are rendering only; the click
handler the source registers here is modelled by `clickCell`.) -/
def spawnCell (nat : ℤ → ℤ → Option ℚ) (i j : ℤ) (s : GameState) : GameState :=
  let token : Option ℚ :=
    match mapGet s.cellMementos (cellKey i j) with
    | some m => m.token
    | none => nat i j
  { s with flyweightCells := mapSet s.flyweightCells (cellKey i j) ⟨i, j, token⟩ }

/-! ## Interaction engine (the click handler, main.ts lines 647-728) -/

/-- The observable outcome of a click on a cell, as the source reports it:
"Too far — move closer to interact", a pickup, a placement, a merge, or
"No valid interaction here". -/
inductive ClickOutcome where
  | tooFar
  | pickedUp (v : ℚ)
  | placed (v : ℚ)
  | merged (v : ℚ)
  | noValidInteraction
deriving DecidableEq, Repr

/-- The decision core of the click handler (lines 648-727): given the player's
cell, the target cell id, the inventory and the cell's current token, produce
the outcome and the new (inventory, cell token) pair.  The branches appear in
source order: distance gate, pickup, placement, merge, fall-through. -/
def interact (pc : CellKey) (i j : ℤ) (inv tok : Option ℚ) :
    ClickOutcome × Option ℚ × Option ℚ :=
  if 3 < max (pc.1 - i).natAbs (pc.2 - j).natAbs then
    (ClickOutcome.tooFar, inv, tok)
  else
    match inv, tok with
    | none, some v => (ClickOutcome.pickedUp v, some v, none)
    | some v, none => (ClickOutcome.placed v, none, some v)
    | some v, some w =>
        if w = v then (ClickOutcome.merged (v * 2), none, some (v * 2))
        else (ClickOutcome.noValidInteraction, some v, some w)
    | none, none => (ClickOutcome.noValidInteraction, none, none)

/-- Whether an outcome mutated the cell (pickup, placement or merge). -/
def ClickOutcome.mutating : ClickOutcome → Bool
  | ClickOutcome.pickedUp _ => true
  | ClickOutcome.placed _ => true
  | ClickOutcome.merged _ => true
  | _ => false

/-- The full click handler on the game state.  A click can only land on a
materialized cell (despawned rectangles are removed from the map), so a click
on an unmaterialized cell is a no-op.  On a mutating outcome the handler
updates the cell object (shared with the flyweight map), writes the memento
through `saveCellMemento`, and triggers a persistence snapshot (outside the
core state). -/
def clickCell (i j : ℤ) (s : GameState) :
    GameState × ClickOutcome :=
  match mapGet s.flyweightCells (cellKey i j) with
  | none => (s, ClickOutcome.noValidInteraction)
  | some cell =>
      let pc := latLngToCellId s.playerPos
      let r := interact pc i j s.playerInventory cell.token
      if r.1.mutating then
        let cell2 : Cell := { cell with token := r.2.2 }
        ({ s with
            playerInventory := r.2.1,
            flyweightCells := mapSet s.flyweightCells (cellKey i j) cell2,
            cellMementos := saveCellMemento cell2 s.cellMementos }, r.1)
      else
        (s, r.1)

/-! ## Viewport scheduler (main.ts lines 776-826) -/

/-- The renderer's visible bounds in degrees (`map.getBounds()`):
south, north, west, east. -/
structure Bounds where
  south : ℚ
  north : ℚ
  west : ℚ
  east : ℚ
deriving DecidableEq, Repr

/-- The inclusive integer range [a, b] as a list. -/
def intRange (a b : ℤ) : List ℤ :=
  (List.range (b + 1 - a).toNat).map (fun (n : ℕ) => a + (n : ℤ))

/-- `materialize(cellId)`: what `spawnCellsForViewport` does for a single
cell (line 823): spawn it only if it is not already materialized. -/
def materializeCell (nat : ℤ → ℤ → Option ℚ) (i j : ℤ) (s : GameState) : GameState :=
  if (mapGet s.flyweightCells (cellKey i j)).isSome then s else spawnCell nat i j s

/-- `spawnCellsForViewport` (lines 807-826): spawn every not-yet-materialized
cell in the box `[⌊south/step⌋-1, ⌊north/step⌋+1] × [⌊west/step⌋-1, ⌊east/step⌋+1]`. -/
def spawnCellsForViewport (nat : ℤ → ℤ → Option ℚ) (b : Bounds) (s : GameState) :
    GameState :=
  let iMin := ⌊b.south / TILE_DEGREES⌋ - 1
  let iMax := ⌊b.north / TILE_DEGREES⌋ + 1
  let jMin := ⌊b.west / TILE_DEGREES⌋ - 1
  let jMax := ⌊b.east / TILE_DEGREES⌋ + 1
  (intRange iMin iMax).foldl
    (fun s i => (intRange jMin jMax).foldl (fun s j => materializeCell nat i j s) s)
    s

/-- Whether a cell lies outside the despawn box (the test at line 790). -/
def outOfBox (iMin iMax jMin jMax : ℤ) (c : Cell) : Bool :=
  decide (c.i < iMin) || decide (iMax < c.i) || decide (c.j < jMin) || decide (jMax < c.j)

/-- The memento-writing pass of `despawnCellsOutsideViewport` (lines 788-801):
fold over the materialized cells in insertion order; each out-of-box modified
cell gets `saveCellMemento` called on it.  Returns the updated memento map and
the list of keys written (the trace of `cellMementos.set` calls made during
eviction). -/
def despawnPass (nat : ℤ → ℤ → Option ℚ) (iMin iMax jMin jMax : ℤ)
    (mem : List (CellKey × CellMemento)) (cells : List (CellKey × Cell)) :
    List (CellKey × CellMemento) × List CellKey :=
  cells.foldl
    (fun acc kc =>
      if outOfBox iMin iMax jMin jMax kc.2 then
        if isCellModified nat acc.1 kc.2 then
          (saveCellMemento kc.2 acc.1, acc.2 ++ [cellKey kc.2.i kc.2.j])
        else acc
      else acc)
    (mem, [])

/-- `despawnCellsOutsideViewport` (lines 776-804): save mementos of modified
out-of-box cells, then remove every out-of-box cell from the flyweight map.
The despawn box is the viewport box with margin 2:
`[⌊south/step⌋-2, ⌊north/step⌋+2] × [⌊west/step⌋-2, ⌊east/step⌋+2]`. -/
def despawnCellsOutsideViewport (nat : ℤ → ℤ → Option ℚ) (b : Bounds)
    (s : GameState) : GameState :=
  let iMin := ⌊b.south / TILE_DEGREES⌋ - 2
  let iMax := ⌊b.north / TILE_DEGREES⌋ + 2
  let jMin := ⌊b.west / TILE_DEGREES⌋ - 2
  let jMax := ⌊b.east / TILE_DEGREES⌋ + 2
  { s with
      cellMementos := (despawnPass nat iMin iMax jMin jMax s.cellMementos s.flyweightCells).1,
      flyweightCells :=
        s.flyweightCells.filter (fun kc => ! outOfBox iMin iMax jMin jMax kc.2) }

/-- The trace of memento writes performed during an eviction pass. -/
def despawnMementoWrites (nat : ℤ → ℤ → Option ℚ) (b : Bounds) (s : GameState) :
    List CellKey :=
  (despawnPass nat (⌊b.south / TILE_DEGREES⌋ - 2) (⌊b.north / TILE_DEGREES⌋ + 2)
    (⌊b.west / TILE_DEGREES⌋ - 2) (⌊b.east / TILE_DEGREES⌋ + 2)
    s.cellMementos s.flyweightCells).2

/-- The spawn-then-despawn sequence every handler runs (`moveend`, `dragend`,
and `updatePlayerPosition` all call `spawnCellsForViewport()` followed by
`despawnCellsOutsideViewport()`). -/
def syncViewport (nat : ℤ → ℤ → Option ℚ) (b : Bounds) (s : GameState) : GameState :=
  despawnCellsOutsideViewport nat b (spawnCellsForViewport nat b s)

/-! ## Movement (main.ts lines 834-870) -/

/-- `updatePlayerPosition` (lines 851-861): set the player position, then
resync the viewport (`panTo` moves the external map, whose post-pan bounds
arrive here as `b`; `refreshCellVisual` and `saveGameState` do not change the
core state). -/
def updatePlayerPosition (nat : ℤ → ℤ → Option ℚ) (p : ℚ × ℚ) (b : Bounds)
    (s : GameState) : GameState :=
  syncViewport nat b { s with playerPos := p }

/-- `moveByOffset` (lines 836-842): step by a grid offset — compute the
player's current cell, offset it, and move to the center of the new cell. -/
def moveByOffset (nat : ℤ → ℤ → Option ℚ) (di dj : ℤ) (b : Bounds)
    (s : GameState) : GameState :=
  let cc := latLngToCellId s.playerPos
  updatePlayerPosition nat (cellCenter (cc.1 + di) (cc.2 + dj)) b s

/-- `moveToPosition` (lines 845-848): move to an absolute position
(geolocation fixes, and marker drags land on the same update path). -/
def moveToPosition (nat : ℤ → ℤ → Option ℚ) (lat lng : ℚ) (b : Bounds)
    (s : GameState) : GameState :=
  updatePlayerPosition nat (lat, lng) b s

/-! ## Effective state and reachability -/

/-- The effective state of cell (i, j): the materialized cell's current token
if the cell is on screen, else the memento if the cell was modified, else the
natural token. -/
def effState (nat : ℤ → ℤ → Option ℚ) (s : GameState) (i j : ℤ) : Option ℚ :=
  match mapGet s.flyweightCells (cellKey i j) with
  | some c => c.token
  | none =>
      match mapGet s.cellMementos (cellKey i j) with
      | some m => m.token
      | none => nat i j

/-- One externally triggered event: a click on a cell, a key/button step, an
absolute position update (geolocation or drag), or a map move/zoom resync.
Viewport bounds accompany events that resync, since they come from the
external renderer. -/
inductive Op where
  | click (i j : ℤ)
  | moveBy (di dj : ℤ) (b : Bounds)
  | moveTo (lat lng : ℚ) (b : Bounds)
  | mapMove (b : Bounds)

/-- Apply one event to the state. -/
def applyOp (nat : ℤ → ℤ → Option ℚ) (s : GameState) : Op → GameState
  | Op.click i j => (clickCell i j s).1
  | Op.moveBy di dj b => moveByOffset nat di dj b s
  | Op.moveTo lat lng b => moveToPosition nat lat lng b s
  | Op.mapMove b => syncViewport nat b s

/-- Apply a list of events in order. -/
def runOps (nat : ℤ → ℤ → Option ℚ) (s : GameState) (l : List Op) : GameState :=
  l.foldl (applyOp nat) s

/-- `CLASSROOM_LATLNG` (main.ts lines 427-430). -/
def CLASSROOM_POS : ℚ × ℚ :=
  (36997936938057016 / 1000000000000000, -12205703507501151 / 100000000000000)

/-- The fresh game state at startup: empty inventory, player at the classroom
location, no materialized cells, no mementos. -/
def initState : GameState :=
  { playerInventory := none
    playerPos := CLASSROOM_POS
    flyweightCells := []
    cellMementos := [] }

/-- A state is reachable when some sequence of externally triggered events
produces it from the fresh state. -/
def Reachable (nat : ℤ → ℤ → Option ℚ) (s₀ s : GameState) : Prop :=
  Relation.ReflTransGen (fun a b => ∃ op, b = applyOp nat a op) s₀ s

theorem reachable_applyOp (nat : ℤ → ℤ → Option ℚ) {s₀ s : GameState}
    (h : Reachable nat s₀ s) (op : Op) : Reachable nat s₀ (applyOp nat s op) :=
  Relation.ReflTransGen.tail h ⟨op, rfl⟩

theorem reachable_runOps (nat : ℤ → ℤ → Option ℚ) {s₀ s : GameState}
    (h : Reachable nat s₀ s) (l : List Op) : Reachable nat s₀ (runOps nat s l) := by
  induction l generalizing s with
  | nil => exact h
  | cons op rest ih =>
      exact ih (reachable_applyOp nat h op)

/-! ## Generic fold invariant -/

theorem foldl_invariant {α β : Type} (f : α → β → α) (P : α → Prop)
    (l : List β) (a : α) (ha : P a) (h : ∀ x y, y ∈ l → P x → P (f x y)) :
    P (l.foldl f a) := by
  induction l generalizing a with
  | nil => exact ha
  | cons b rest ih =>
      exact ih (f a b) (h a b (List.mem_cons_self b rest) ha)
        (fun x y hy hx => h x y (List.mem_cons_of_mem _ hy) hx)

/-! ## Frame lemmas: which fields each operation can change -/

theorem spawnCell_frame (nat : ℤ → ℤ → Option ℚ) (i j : ℤ) (s : GameState) :
    (spawnCell nat i j s).playerPos = s.playerPos ∧
    (spawnCell nat i j s).playerInventory = s.playerInventory ∧
    (spawnCell nat i j s).cellMementos = s.cellMementos := by
  unfold spawnCell
  exact ⟨rfl, rfl, rfl⟩

theorem spawnCellsForViewport_frame (nat : ℤ → ℤ → Option ℚ) (b : Bounds)
    (s : GameState) :
    (spawnCellsForViewport nat b s).playerPos = s.playerPos ∧
    (spawnCellsForViewport nat b s).playerInventory = s.playerInventory ∧
    (spawnCellsForViewport nat b s).cellMementos = s.cellMementos := by
  unfold spawnCellsForViewport
  refine foldl_invariant _
    (fun (t : GameState) => t.playerPos = s.playerPos ∧
      t.playerInventory = s.playerInventory ∧ t.cellMementos = s.cellMementos)
    _ _ ⟨rfl, rfl, rfl⟩ ?_
  intro x i _ hx
  refine foldl_invariant _
    (fun (t : GameState) => t.playerPos = s.playerPos ∧
      t.playerInventory = s.playerInventory ∧ t.cellMementos = s.cellMementos)
    _ _ hx ?_
  intro y j _ hy
  unfold materializeCell
  split
  · exact hy
  · have hs := spawnCell_frame nat i j y
    exact ⟨hs.1.trans hy.1, hs.2.1.trans hy.2.1, hs.2.2.trans hy.2.2⟩

theorem despawn_frame (nat : ℤ → ℤ → Option ℚ) (b : Bounds) (s : GameState) :
    (despawnCellsOutsideViewport nat b s).playerPos = s.playerPos ∧
    (despawnCellsOutsideViewport nat b s).playerInventory = s.playerInventory := by
  unfold despawnCellsOutsideViewport
  exact ⟨rfl, rfl⟩

theorem syncViewport_frame (nat : ℤ → ℤ → Option ℚ) (b : Bounds) (s : GameState) :
    (syncViewport nat b s).playerPos = s.playerPos ∧
    (syncViewport nat b s).playerInventory = s.playerInventory := by
  unfold syncViewport
  constructor
  · exact (despawn_frame nat b _).1.trans (spawnCellsForViewport_frame nat b s).1
  · exact (despawn_frame nat b _).2.trans (spawnCellsForViewport_frame nat b s).2.1

/-! ## C10: manual steps land on cell centers -/

/-- C10: a manual step (keys or on-screen buttons) computes the player's
current cell from the continuous position and moves the player to exactly the
center of the offset cell, so after any manual step the continuous position is
the exact center of a grid cell; an absolute-position update (geolocation fix
or drag) places the player at exactly the given position, which can be
anywhere within a cell. -/
theorem moveByOffset_lands_on_center (nat : ℤ → ℤ → Option ℚ) (di dj : ℤ)
    (b : Bounds) (s : GameState) (lat lng : ℚ) :
    (moveByOffset nat di dj b s).playerPos =
      cellCenter ((latLngToCellId s.playerPos).1 + di)
        ((latLngToCellId s.playerPos).2 + dj) ∧
    (moveToPosition nat lat lng b s).playerPos = (lat, lng) := by
  unfold moveByOffset moveToPosition updatePlayerPosition
  constructor
  · exact (syncViewport_frame nat b _).1
  · exact (syncViewport_frame nat b _).1

/-! ## C1: the interaction table

The spec's §4.5 state machine, written from the spec's words for comparison
with the `interact` function translated from the source.  The spec result
taxonomy has a `NOTHING_TO_DO` case that the source does not distinguish. -/

/-- The spec's result classification (spec §4.5). -/
inductive SpecResult where
  | OUT_OF_RANGE
  | NOTHING_TO_DO
  | PICKED_UP (v : ℚ)
  | PLACED (v : ℚ)
  | MERGED (v : ℚ)
  | NO_VALID_INTERACTION
deriving DecidableEq, Repr

/-- The spec's §4.5 interaction table, row by row. -/
def specInteract (pc : CellKey) (i j : ℤ) (inv tok : Option ℚ) :
    SpecResult × Option ℚ × Option ℚ :=
  if 3 < max (pc.1 - i).natAbs (pc.2 - j).natAbs then
    (SpecResult.OUT_OF_RANGE, inv, tok)
  else
    match inv, tok with
    | none, none => (SpecResult.NOTHING_TO_DO, none, none)
    | none, some v => (SpecResult.PICKED_UP v, some v, none)
    | some v, none => (SpecResult.PLACED v, none, some v)
    | some v, some w =>
        if w = v then (SpecResult.MERGED (2 * v), none, some (2 * v))
        else (SpecResult.NO_VALID_INTERACTION, some v, some w)

/-- The spec's table with the single amendment the code forces: the
(empty inventory, empty cell) row reports `NO_VALID_INTERACTION` instead of a
separate `NOTHING_TO_DO` result. -/
def specInteractAmended (pc : CellKey) (i j : ℤ) (inv tok : Option ℚ) :
    SpecResult × Option ℚ × Option ℚ :=
  if 3 < max (pc.1 - i).natAbs (pc.2 - j).natAbs then
    (SpecResult.OUT_OF_RANGE, inv, tok)
  else
    match inv, tok with
    | none, none => (SpecResult.NO_VALID_INTERACTION, none, none)
    | none, some v => (SpecResult.PICKED_UP v, some v, none)
    | some v, none => (SpecResult.PLACED v, none, some v)
    | some v, some w =>
        if w = v then (SpecResult.MERGED (2 * v), none, some (2 * v))
        else (SpecResult.NO_VALID_INTERACTION, some v, some w)

/-- The correspondence between the source's observable outcomes and the
spec's result names. -/
def outcomeMatches : ClickOutcome → SpecResult → Prop
  | ClickOutcome.tooFar, SpecResult.OUT_OF_RANGE => True
  | ClickOutcome.pickedUp v, SpecResult.PICKED_UP w => v = w
  | ClickOutcome.placed v, SpecResult.PLACED w => v = w
  | ClickOutcome.merged v, SpecResult.MERGED w => v = w
  | ClickOutcome.noValidInteraction, SpecResult.NO_VALID_INTERACTION => True
  | _, _ => False

instance (o : ClickOutcome) (r : SpecResult) : Decidable (outcomeMatches o r) := by
  unfold outcomeMatches
  cases o <;> cases r <;> simp <;> infer_instance

/-- C1 as stated: on every interaction attempt the source's click logic
produces the spec table's result and state updates. -/
def C1Statement : Prop :=
  ∀ (pc : CellKey) (i j : ℤ) (inv tok : Option ℚ),
    outcomeMatches (interact pc i j inv tok).1 (specInteract pc i j inv tok).1 ∧
    (interact pc i j inv tok).2 = (specInteract pc i j inv tok).2

/-- C1 counterexample: with the player standing on the target cell, empty
inventory and an empty cell, the spec table says `NOTHING_TO_DO` but the
source reports "No valid interaction here". -/
theorem interact_nothingToDo_counterexample : ¬ C1Statement := by
  intro h
  have h0 := (h (0, 0) 0 0 none none).1
  revert h0
  decide

/-- C1 (amended): the source's click logic agrees with the spec's §4.5 table
everywhere, except that the (empty inventory, empty cell) row inside range
reports `NO_VALID_INTERACTION` (there is no separate `NOTHING_TO_DO` result):
out-of-range always wins and changes nothing; pickup, placement and merge
update inventory and cell exactly as in the table; mismatched tokens change
nothing. -/
theorem interact_matches_spec_amended (pc : CellKey) (i j : ℤ)
    (inv tok : Option ℚ) :
    outcomeMatches (interact pc i j inv tok).1 (specInteractAmended pc i j inv tok).1 ∧
    (interact pc i j inv tok).2 = (specInteractAmended pc i j inv tok).2 := by
  unfold interact specInteractAmended
  by_cases hd : 3 < max (pc.1 - i).natAbs (pc.2 - j).natAbs
  · simp [hd, outcomeMatches]
  · rcases inv with _ | v <;> rcases tok with _ | w
    · simp [hd, outcomeMatches]
    · simp [hd, outcomeMatches]
    · simp [hd, outcomeMatches]
    · by_cases hw : w = v
      · simp [hd, hw, outcomeMatches, mul_comm]
      · simp [hd, hw, outcomeMatches]

/-! ## C2: no-farming idempotence of materialize/evict cycles -/

/-- `evict(cellId)`: the per-cell body of `despawnCellsOutsideViewport`
(lines 790-799) applied to one cell: if it is materialized, save a memento
when `isCellModified`, and drop it from the flyweight map. -/
def evictCell (nat : ℤ → ℤ → Option ℚ) (i j : ℤ) (s : GameState) : GameState :=
  match mapGet s.flyweightCells (cellKey i j) with
  | none => s
  | some c =>
      { s with
          cellMementos :=
            if isCellModified nat s.cellMementos c then saveCellMemento c s.cellMementos
            else s.cellMementos,
          flyweightCells := mapDelete s.flyweightCells (cellKey i j) }

/-- One materialize-then-evict cycle on a single cell (visit and leave). -/
def matEvictCycle (nat : ℤ → ℤ → Option ℚ) (i j : ℤ) (s : GameState) : GameState :=
  evictCell nat i j (materializeCell nat i j s)

/-- Cell (i, j) was never mutated: it has no memento, and if it is currently
materialized it carries its natural token. -/
def UntouchedAt (nat : ℤ → ℤ → Option ℚ) (s : GameState) (i j : ℤ) : Prop :=
  mapGet s.cellMementos (cellKey i j) = none ∧
  ∀ c, mapGet s.flyweightCells (cellKey i j) = some c → c = ⟨i, j, nat i j⟩

/-- Cell (i, j) was mutated and its override value is `t`: the memento map
holds `t`, and if the cell is currently materialized it carries `t`. -/
def OverriddenAt (s : GameState) (i j : ℤ) (t : Option ℚ) : Prop :=
  mapGet s.cellMementos (cellKey i j) = some ⟨i, j, t⟩ ∧
  ∀ c, mapGet s.flyweightCells (cellKey i j) = some c → c = ⟨i, j, t⟩

theorem mapGet_mapSet_self {K V : Type} [DecidableEq K] (m : List (K × V))
    (k : K) (v : V) : mapGet (mapSet m k v) k = some v := by
  rw [mapGet_mapSet]
  simp

theorem mapGet_mapDelete_self {K V : Type} [DecidableEq K] (m : List (K × V))
    (k : K) : mapGet (mapDelete m k) k = none := by
  rw [mapGet_mapDelete]
  simp

theorem evictCell_eq_of_none (nat : ℤ → ℤ → Option ℚ) {s : GameState} {i j : ℤ}
    (hfly : mapGet s.flyweightCells (cellKey i j) = none) :
    evictCell nat i j s = s := by
  unfold evictCell
  rw [hfly]

theorem evictCell_eq_of_some (nat : ℤ → ℤ → Option ℚ) {s : GameState} {i j : ℤ}
    {c : Cell} (hfly : mapGet s.flyweightCells (cellKey i j) = some c) :
    evictCell nat i j s =
      { s with
          cellMementos :=
            if isCellModified nat s.cellMementos c then saveCellMemento c s.cellMementos
            else s.cellMementos,
          flyweightCells := mapDelete s.flyweightCells (cellKey i j) } := by
  unfold evictCell
  rw [hfly]

theorem untouched_materialize (nat : ℤ → ℤ → Option ℚ) {s : GameState} {i j : ℤ}
    (h : UntouchedAt nat s i j) : UntouchedAt nat (materializeCell nat i j s) i j := by
  unfold materializeCell
  split
  · exact h
  · unfold spawnCell
    refine ⟨h.1, ?_⟩
    intro c hc
    rw [h.1] at hc
    rw [mapGet_mapSet_self] at hc
    injection hc with hc
    exact hc.symm

theorem untouched_evict (nat : ℤ → ℤ → Option ℚ) {s : GameState} {i j : ℤ}
    (h : UntouchedAt nat s i j) : UntouchedAt nat (evictCell nat i j s) i j := by
  cases hfly : mapGet s.flyweightCells (cellKey i j) with
  | none => rw [evictCell_eq_of_none nat hfly]; exact h
  | some c =>
      rw [evictCell_eq_of_some nat hfly]
      have hc : c = ⟨i, j, nat i j⟩ := h.2 c hfly
      have hmod : isCellModified nat s.cellMementos c = false := by
        rw [hc]
        show ((mapGet s.cellMementos (cellKey i j)).isSome
          || decide (nat i j ≠ nat i j)) = false
        rw [h.1]
        simp
      rw [hmod]
      refine ⟨h.1, ?_⟩
      intro c2 hc2
      simp only at hc2
      rw [mapGet_mapDelete_self] at hc2
      exact absurd hc2 (by simp)

theorem overridden_materialize (nat : ℤ → ℤ → Option ℚ) {s : GameState} {i j : ℤ}
    {t : Option ℚ} (h : OverriddenAt s i j t) :
    OverriddenAt (materializeCell nat i j s) i j t := by
  unfold materializeCell
  split
  · exact h
  · unfold spawnCell
    refine ⟨h.1, ?_⟩
    intro c hc
    rw [h.1] at hc
    rw [mapGet_mapSet_self] at hc
    injection hc with hc
    exact hc.symm

theorem overridden_evict (nat : ℤ → ℤ → Option ℚ) {s : GameState} {i j : ℤ}
    {t : Option ℚ} (h : OverriddenAt s i j t) :
    OverriddenAt (evictCell nat i j s) i j t := by
  cases hfly : mapGet s.flyweightCells (cellKey i j) with
  | none => rw [evictCell_eq_of_none nat hfly]; exact h
  | some c =>
      rw [evictCell_eq_of_some nat hfly]
      have hc : c = ⟨i, j, t⟩ := h.2 c hfly
      constructor
      · simp only
        split
        · unfold saveCellMemento
          rw [hc]
          exact mapGet_mapSet_self _ _ _
        · exact h.1
      · intro c2 hc2
        simp only at hc2
        rw [mapGet_mapDelete_self] at hc2
        exact absurd hc2 (by simp)

theorem untouched_iterate (nat : ℤ → ℤ → Option ℚ) {s : GameState} {i j : ℤ}
    (n : ℕ) (h : UntouchedAt nat s i j) :
    UntouchedAt nat ((matEvictCycle nat i j)^[n] s) i j := by
  induction n with
  | zero => exact h
  | succ n ih =>
      rw [Function.iterate_succ_apply']
      exact untouched_evict nat (untouched_materialize nat ih)

theorem overridden_iterate (nat : ℤ → ℤ → Option ℚ) {s : GameState} {i j : ℤ}
    {t : Option ℚ} (n : ℕ) (h : OverriddenAt s i j t) :
    OverriddenAt ((matEvictCycle nat i j)^[n] s) i j t := by
  induction n with
  | zero => exact h
  | succ n ih =>
      rw [Function.iterate_succ_apply']
      exact overridden_evict nat (overridden_materialize nat ih)

theorem effState_of_untouched (nat : ℤ → ℤ → Option ℚ) {s : GameState} {i j : ℤ}
    (h : UntouchedAt nat s i j) : effState nat s i j = nat i j := by
  unfold effState
  cases hfly : mapGet s.flyweightCells (cellKey i j) with
  | none => rw [h.1]
  | some c => rw [h.2 c hfly]

theorem effState_of_overridden (nat : ℤ → ℤ → Option ℚ) {s : GameState} {i j : ℤ}
    {t : Option ℚ} (h : OverriddenAt s i j t) : effState nat s i j = t := by
  unfold effState
  cases hfly : mapGet s.flyweightCells (cellKey i j) with
  | none => rw [h.1]
  | some c => rw [h.2 c hfly]

/-- C2: materializing, evicting and rematerializing a cell any number of
times never changes its effective state: a never-mutated cell always reads as
`natural(cellId)` (visiting and leaving farms no new resources), and a mutated
cell always reads as its override value. -/
theorem effState_stable_under_cycles (nat : ℤ → ℤ → Option ℚ) (i j : ℤ)
    (s : GameState) (n : ℕ) (t : Option ℚ) :
    (UntouchedAt nat s i j →
      effState nat ((matEvictCycle nat i j)^[n] s) i j = nat i j ∧
      effState nat (materializeCell nat i j ((matEvictCycle nat i j)^[n] s)) i j = nat i j) ∧
    (OverriddenAt s i j t →
      effState nat ((matEvictCycle nat i j)^[n] s) i j = t ∧
      effState nat (materializeCell nat i j ((matEvictCycle nat i j)^[n] s)) i j = t) := by
  constructor
  · intro h
    have hn := untouched_iterate nat n h
    exact ⟨effState_of_untouched nat hn,
      effState_of_untouched nat (untouched_materialize nat hn)⟩
  · intro h
    have hn := overridden_iterate nat n h
    exact ⟨effState_of_overridden nat hn,
      effState_of_overridden nat (overridden_materialize nat hn)⟩

/-- Witness for C2 at a concrete input: a generator that puts token 1
everywhere, the fresh state, cell (0, 0), two full cycles. -/
theorem effState_stable_under_cycles_witness :
    UntouchedAt (fun _ _ => some 1) initState 0 0 ∧
    effState (fun _ _ => some 1)
      ((matEvictCycle (fun _ _ => some 1) 0 0)^[2] initState) 0 0 = some 1 := by
  have hu : UntouchedAt (fun _ _ => some 1) initState 0 0 :=
    ⟨rfl, fun c hc => by simp [initState] at hc⟩
  exact ⟨hu,
    ((effState_stable_under_cycles (fun _ _ => some 1) 0 0 initState 2 none).1 hu).1⟩

/-! ## More association-list lemmas (unique keys) -/

section AssocMapNodup

variable {K : Type} {V : Type} [DecidableEq K]

theorem mapGet_eq_none_iff (m : List (K × V)) (k : K) :
    mapGet m k = none ↔ k ∉ m.map Prod.fst := by
  induction m with
  | nil => simp
  | cons p rest ih =>
      by_cases hp : p.1 = k
      · simp [hp]
      · simp only [mapGet_cons, if_neg hp, List.map_cons, List.mem_cons]
        rw [ih]
        constructor
        · intro h1 h2
          rcases h2 with h2 | h2
          · exact hp (h2.symm)
          · exact h1 h2
        · intro h1 h2
          exact h1 (Or.inr h2)

theorem keys_mem_mapSet {m : List (K × V)} {k x : K} {v : V}
    (h : x ∈ (mapSet m k v).map Prod.fst) : x ∈ m.map Prod.fst ∨ x = k := by
  rcases List.mem_map.mp h with ⟨p, hp, hpe⟩
  rcases mem_mapSet hp with h1 | h1
  · exact Or.inl (hpe ▸ List.mem_map_of_mem Prod.fst h1)
  · right
    rw [← hpe, h1]

theorem nodup_keys_mapSet {m : List (K × V)} {k : K} {v : V}
    (h : (m.map Prod.fst).Nodup) : ((mapSet m k v).map Prod.fst).Nodup := by
  induction m with
  | nil => simp [mapSet]
  | cons q rest ih =>
      simp only [List.map_cons, List.nodup_cons] at h
      by_cases hq : q.1 = k
      · simp only [mapSet, if_pos hq, List.map_cons, List.nodup_cons]
        exact ⟨hq ▸ h.1, h.2⟩
      · simp only [mapSet, if_neg hq, List.map_cons, List.nodup_cons]
        refine ⟨?_, ih h.2⟩
        intro hmem
        rcases keys_mem_mapSet hmem with h1 | h1
        · exact h.1 h1
        · exact hq h1

theorem mem_mapSet_nodup {m : List (K × V)} {k : K} {v : V} {p : K × V}
    (hnd : (m.map Prod.fst).Nodup) (h : p ∈ mapSet m k v) :
    (p ∈ m ∧ p.1 ≠ k) ∨ p = (k, v) := by
  induction m with
  | nil =>
      right
      simpa [mapSet] using h
  | cons q rest ih =>
      simp only [List.map_cons, List.nodup_cons] at hnd
      by_cases hq : q.1 = k
      · simp only [mapSet, if_pos hq] at h
        rcases List.mem_cons.mp h with h1 | h1
        · exact Or.inr h1
        · left
          refine ⟨List.mem_cons_of_mem _ h1, ?_⟩
          intro hpk
          have hmem : p.1 ∈ rest.map Prod.fst := List.mem_map_of_mem Prod.fst h1
          rw [hpk, ← hq] at hmem
          exact hnd.1 hmem
      · simp only [mapSet, if_neg hq] at h
        rcases List.mem_cons.mp h with h1 | h1
        · left
          exact ⟨h1 ▸ List.mem_cons_self q rest, h1 ▸ hq⟩
        · rcases ih hnd.2 h1 with h2 | h2
          · exact Or.inl ⟨List.mem_cons_of_mem _ h2.1, h2.2⟩
          · exact Or.inr h2

end AssocMapNodup

/-! ## The reachable-state invariant

In every reachable state: flyweight keys are unique, every flyweight and
memento entry is stored under the key of its own coordinates, and every
materialized cell's token either equals its memento (write-through already
happened) or equals its natural token with no memento (never modified). -/

def Inv (nat : ℤ → ℤ → Option ℚ) (s : GameState) : Prop :=
  (s.flyweightCells.map Prod.fst).Nodup ∧
  (∀ p ∈ s.flyweightCells, p.1 = cellKey p.2.i p.2.j) ∧
  (∀ p ∈ s.cellMementos, p.1 = cellKey p.2.i p.2.j) ∧
  (∀ p ∈ s.flyweightCells,
     mapGet s.cellMementos p.1 = some ⟨p.2.i, p.2.j, p.2.token⟩ ∨
     (mapGet s.cellMementos p.1 = none ∧ p.2.token = nat p.2.i p.2.j))

theorem inv_initState (nat : ℤ → ℤ → Option ℚ) : Inv nat initState := by
  refine ⟨by simp [initState], ?_, ?_, ?_⟩ <;> simp [initState]

theorem inv_spawnCell (nat : ℤ → ℤ → Option ℚ) (i j : ℤ) {s : GameState}
    (h : Inv nat s) : Inv nat (spawnCell nat i j s) := by
  obtain ⟨hnd, hfc, hmc, hwt⟩ := h
  unfold spawnCell
  refine ⟨nodup_keys_mapSet hnd, ?_, hmc, ?_⟩
  · intro p hp
    rcases mem_mapSet hp with h1 | h1
    · exact hfc p h1
    · rw [h1]
  · intro p hp
    rcases mem_mapSet_nodup hnd hp with ⟨h1, _⟩ | h1
    · exact hwt p h1
    · subst h1
      simp only
      cases hm : mapGet s.cellMementos (cellKey i j) with
      | none =>
          right
          simp [hm]
      | some m =>
          left
          have hmk : cellKey i j = cellKey m.i m.j := hmc (cellKey i j, m) (mapGet_mem hm)
          have hmi : m.i = i := by
            have := congrArg Prod.fst hmk
            simpa [cellKey] using this.symm
          have hmj : m.j = j := by
            have := congrArg Prod.snd hmk
            simpa [cellKey] using this.symm
          cases m with
          | mk mi mj mtok =>
              simp only at hmi hmj
              subst hmi
              subst hmj
              rfl

theorem inv_materializeCell (nat : ℤ → ℤ → Option ℚ) (i j : ℤ) {s : GameState}
    (h : Inv nat s) : Inv nat (materializeCell nat i j s) := by
  unfold materializeCell
  split
  · exact h
  · exact inv_spawnCell nat i j h

theorem inv_spawnCellsForViewport (nat : ℤ → ℤ → Option ℚ) (b : Bounds)
    {s : GameState} (h : Inv nat s) : Inv nat (spawnCellsForViewport nat b s) := by
  unfold spawnCellsForViewport
  refine foldl_invariant _ (Inv nat) _ _ h ?_
  intro x i _ hx
  refine foldl_invariant _ (Inv nat) _ _ hx ?_
  intro y j _ hy
  exact inv_materializeCell nat i j hy

/-- The eviction pass leaves the memento map extensionally unchanged and
records its write trace, provided every materialized cell satisfies the
write-through property with respect to the initial memento map. -/
theorem despawnPass_mem_ext (nat : ℤ → ℤ → Option ℚ) (iMin iMax jMin jMax : ℤ)
    (mem : List (CellKey × CellMemento)) (cells : List (CellKey × Cell))
    (hcells : ∀ p ∈ cells,
      mapGet mem (cellKey p.2.i p.2.j) = some ⟨p.2.i, p.2.j, p.2.token⟩ ∨
      (mapGet mem (cellKey p.2.i p.2.j) = none ∧ p.2.token = nat p.2.i p.2.j)) :
    ∀ k, mapGet (despawnPass nat iMin iMax jMin jMax mem cells).1 k = mapGet mem k := by
  unfold despawnPass
  refine foldl_invariant _
    (fun (acc : List (CellKey × CellMemento) × List CellKey) =>
      ∀ k, mapGet acc.1 k = mapGet mem k) _ _ (fun _ => rfl) ?_
  intro acc kc hkc hacc
  dsimp only
  split
  · rcases hcells kc hkc with hw | hw
    · have hmod : isCellModified nat acc.1 kc.2 = true := by
        unfold isCellModified
        rw [hacc, hw]
        simp
      rw [if_pos hmod]
      intro k
      unfold saveCellMemento
      rw [mapGet_mapSet]
      split
      case isTrue hk => rw [hk, hw]
      case isFalse hk => exact hacc k
    · have hmod : isCellModified nat acc.1 kc.2 = false := by
        unfold isCellModified
        rw [hacc, hw.1]
        simp [hw.2]
      rw [if_neg (by simp [hmod])]
      exact hacc
  · exact hacc

theorem inv_despawn (nat : ℤ → ℤ → Option ℚ) (b : Bounds) {s : GameState}
    (h : Inv nat s) : Inv nat (despawnCellsOutsideViewport nat b s) := by
  obtain ⟨hnd, hfc, hmc, hwt⟩ := h
  have hcells : ∀ p ∈ s.flyweightCells,
      mapGet s.cellMementos (cellKey p.2.i p.2.j) = some ⟨p.2.i, p.2.j, p.2.token⟩ ∨
      (mapGet s.cellMementos (cellKey p.2.i p.2.j) = none ∧
        p.2.token = nat p.2.i p.2.j) := by
    intro p hp
    rw [← hfc p hp]
    exact hwt p hp
  have hext := despawnPass_mem_ext nat (⌊b.south / TILE_DEGREES⌋ - 2)
    (⌊b.north / TILE_DEGREES⌋ + 2) (⌊b.west / TILE_DEGREES⌋ - 2)
    (⌊b.east / TILE_DEGREES⌋ + 2) s.cellMementos s.flyweightCells hcells
  have hmemcons : ∀ p ∈ (despawnPass nat (⌊b.south / TILE_DEGREES⌋ - 2)
      (⌊b.north / TILE_DEGREES⌋ + 2) (⌊b.west / TILE_DEGREES⌋ - 2)
      (⌊b.east / TILE_DEGREES⌋ + 2) s.cellMementos s.flyweightCells).1,
      p.1 = cellKey p.2.i p.2.j := by
    unfold despawnPass
    refine foldl_invariant _
      (fun (acc : List (CellKey × CellMemento) × List CellKey) =>
        ∀ p ∈ acc.1, p.1 = cellKey p.2.i p.2.j) _ _ hmc ?_
    intro acc kc _ hacc
    dsimp only
    split
    · split
      · intro p hp
        rcases mem_mapSet hp with h1 | h1
        · exact hacc p h1
        · rw [h1]
      · exact hacc
    · exact hacc
  unfold despawnCellsOutsideViewport
  refine ⟨?_, ?_, hmemcons, ?_⟩
  · exact (List.Sublist.map Prod.fst (List.filter_sublist _)).nodup hnd
  · intro p hp
    exact hfc p (List.mem_of_mem_filter hp)
  · intro p hp
    have hpm := List.mem_of_mem_filter hp
    simp only
    rw [hext]
    exact hwt p hpm

theorem inv_syncViewport (nat : ℤ → ℤ → Option ℚ) (b : Bounds) {s : GameState}
    (h : Inv nat s) : Inv nat (syncViewport nat b s) :=
  inv_despawn nat b (inv_spawnCellsForViewport nat b h)

theorem inv_clickCell (i j : ℤ) {s : GameState} {nat : ℤ → ℤ → Option ℚ}
    (h : Inv nat s) : Inv nat (clickCell i j s).1 := by
  obtain ⟨hnd, hfc, hmc, hwt⟩ := h
  unfold clickCell
  cases hfly : mapGet s.flyweightCells (cellKey i j) with
  | none => exact ⟨hnd, hfc, hmc, hwt⟩
  | some cell =>
      dsimp only
      split
      case isTrue hmut =>
        have hk : cellKey i j = cellKey cell.i cell.j :=
          hfc (cellKey i j, cell) (mapGet_mem hfly)
        refine ⟨nodup_keys_mapSet hnd, ?_, ?_, ?_⟩
        · intro p hp
          rcases mem_mapSet hp with h1 | h1
          · exact hfc p h1
          · rw [h1]
            exact hk
        · intro p hp
          rcases mem_mapSet hp with h1 | h1
          · exact hmc p h1
          · rw [h1]
        · intro p hp
          rcases mem_mapSet_nodup hnd hp with ⟨h1, h2⟩ | h1
          · rcases hwt p h1 with hw | hw
            · left
              unfold saveCellMemento
              simp only
              rw [mapGet_mapSet]
              rw [if_neg ?_]
              · exact hw
              · intro he
                exact h2 (by rw [he, ← hk])
            · right
              refine ⟨?_, hw.2⟩
              unfold saveCellMemento
              simp only
              rw [mapGet_mapSet]
              rw [if_neg ?_]
              · exact hw.1
              · intro he
                exact h2 (by rw [he, ← hk])
          · subst h1
            left
            unfold saveCellMemento
            simp only
            rw [hk]
            exact mapGet_mapSet_self _ _ _
      case isFalse => exact ⟨hnd, hfc, hmc, hwt⟩

theorem inv_applyOp (nat : ℤ → ℤ → Option ℚ) {s : GameState} (op : Op)
    (h : Inv nat s) : Inv nat (applyOp nat s op) := by
  cases op with
  | click i j => exact inv_clickCell i j h
  | moveBy di dj b =>
      exact inv_syncViewport nat b (by exact h)
  | moveTo lat lng b =>
      exact inv_syncViewport nat b (by exact h)
  | mapMove b => exact inv_syncViewport nat b h

theorem inv_reachable (nat : ℤ → ℤ → Option ℚ) {s : GameState}
    (h : Reachable nat initState s) : Inv nat s := by
  induction h with
  | refl => exact inv_initState nat
  | tail _ hstep ih =>
      rcases hstep with ⟨op, rfl⟩
      exact inv_applyOp nat op ih

/-! ## C3: when the Override Map is written -/

/-- C3 as stated: mutations write through immediately, and eviction performs
no write to the Override Map at all (for any viewport bounds, the eviction
pass of a reachable state makes zero `cellMementos.set` calls). -/
def C3Statement : Prop :=
  ∀ (nat : ℤ → ℤ → Option ℚ) (s : GameState), Reachable nat initState s →
    (∀ i j : ℤ, (clickCell i j s).2.mutating = true →
      ∃ c2, mapGet (clickCell i j s).1.flyweightCells (cellKey i j) = some c2 ∧
        mapGet (clickCell i j s).1.cellMementos (cellKey i j) =
          some ⟨c2.i, c2.j, c2.token⟩) ∧
    (∀ b : Bounds, despawnMementoWrites nat b s = [])

/-- C3 counterexample: reach a state by walking to cell (0, 0) and picking up
its token; evicting with the viewport far away then performs a memento write
for the modified cell (0, 0), so the eviction pass is not write-free. -/
theorem eviction_write_counterexample : ¬ C3Statement := by
  intro h
  have hr : Reachable (fun _ _ => some 1) initState
      (runOps (fun _ _ => some 1) initState
        [Op.moveTo (cellCenter 0 0).1 (cellCenter 0 0).2 ⟨0, 0, 0, 0⟩,
         Op.click 0 0]) :=
    reachable_runOps _ Relation.ReflTransGen.refl _
  have h2 := (h _ _ hr).2 ⟨1/1000, 1/1000, 1/1000, 1/1000⟩
  have h3 : despawnMementoWrites (fun _ _ => some 1)
      ⟨1/1000, 1/1000, 1/1000, 1/1000⟩
      (runOps (fun _ _ => some 1) initState
        [Op.moveTo (cellCenter 0 0).1 (cellCenter 0 0).2 ⟨0, 0, 0, 0⟩,
         Op.click 0 0]) = [(0, 0)] := by decide
  rw [h3] at h2
  exact absurd h2 (by simp)

/-- C3 (amended): pickup, placement and merge write the mutated cell's new
state to the Override Map immediately (write-through).  Eviction re-runs
`saveCellMemento` on cells it considers modified, but in any state satisfying
the reachable-state invariant this rewrite stores the value that is already
present, so eviction never changes the Override Map's contents and never
creates an entry; no entry is ever created merely because a cell became
visible or was evicted. -/
theorem override_map_write_discipline (nat : ℤ → ℤ → Option ℚ) (s : GameState)
    (b : Bounds) (i j : ℤ) (k : CellKey) (h : Inv nat s) :
    mapGet (despawnCellsOutsideViewport nat b s).cellMementos k =
      mapGet s.cellMementos k ∧
    ((clickCell i j s).2.mutating = true →
      ∃ c2, mapGet (clickCell i j s).1.flyweightCells (cellKey i j) = some c2 ∧
        mapGet (clickCell i j s).1.cellMementos (cellKey i j) =
          some ⟨c2.i, c2.j, c2.token⟩) := by
  obtain ⟨hnd, hfc, hmc, hwt⟩ := h
  constructor
  · have hcells : ∀ p ∈ s.flyweightCells,
        mapGet s.cellMementos (cellKey p.2.i p.2.j) =
          some ⟨p.2.i, p.2.j, p.2.token⟩ ∨
        (mapGet s.cellMementos (cellKey p.2.i p.2.j) = none ∧
          p.2.token = nat p.2.i p.2.j) := by
      intro p hp
      rw [← hfc p hp]
      exact hwt p hp
    exact despawnPass_mem_ext nat _ _ _ _ s.cellMementos s.flyweightCells hcells k
  · unfold clickCell
    cases hfly : mapGet s.flyweightCells (cellKey i j) with
    | none =>
        intro hmut
        simp [ClickOutcome.mutating] at hmut
    | some cell =>
        dsimp only
        split
        case isTrue hmut2 =>
            intro _
            have hk : cellKey i j = cellKey cell.i cell.j :=
              hfc (cellKey i j, cell) (mapGet_mem hfly)
            refine ⟨⟨cell.i, cell.j,
              (interact (latLngToCellId s.playerPos) i j s.playerInventory
                cell.token).2.2⟩, ?_, ?_⟩
            · exact mapGet_mapSet_self _ _ _
            · unfold saveCellMemento
              simp only
              rw [hk]
              exact mapGet_mapSet_self _ _ _
        case isFalse hmut2 =>
            intro hmut
            exact absurd hmut hmut2

/-- Witness for C3 (amended) at a concrete input: a state holding one modified
materialized cell with its write-through memento in place. -/
theorem override_map_write_discipline_witness :
    mapGet (despawnCellsOutsideViewport (fun _ _ => some 1)
      ⟨1/1000, 1/1000, 1/1000, 1/1000⟩
      ⟨none, cellCenter 0 0, [((0, 0), ⟨0, 0, some 2⟩)],
        [((0, 0), ⟨0, 0, some 2⟩)]⟩).cellMementos (0, 0) =
      mapGet [((0, 0), (⟨0, 0, some 2⟩ : CellMemento))] (0, 0) ∧
    ((clickCell 0 0 ⟨none, cellCenter 0 0, [((0, 0), ⟨0, 0, some 2⟩)],
        [((0, 0), ⟨0, 0, some 2⟩)]⟩).2.mutating = true →
      ∃ c2, mapGet (clickCell 0 0 ⟨none, cellCenter 0 0,
          [((0, 0), ⟨0, 0, some 2⟩)],
          [((0, 0), ⟨0, 0, some 2⟩)]⟩).1.flyweightCells (cellKey 0 0) =
            some c2 ∧
        mapGet (clickCell 0 0 ⟨none, cellCenter 0 0,
          [((0, 0), ⟨0, 0, some 2⟩)],
          [((0, 0), ⟨0, 0, some 2⟩)]⟩).1.cellMementos (cellKey 0 0) =
            some ⟨c2.i, c2.j, c2.token⟩) := by
  exact override_map_write_discipline (fun _ _ => some 1)
    ⟨none, cellCenter 0 0, [((0, 0), ⟨0, 0, some 2⟩)],
      [((0, 0), ⟨0, 0, some 2⟩)]⟩
    ⟨1/1000, 1/1000, 1/1000, 1/1000⟩ 0 0 (0, 0)
    (by unfold Inv; exact ⟨by decide, by decide, by decide, by decide⟩)

/-! ## C5: what the viewport sync materializes and evicts -/

/-- Standalone name for the flyweight key-consistency component of `Inv`. -/
def FlyConsistent (s : GameState) : Prop :=
  ∀ p ∈ s.flyweightCells, p.1 = cellKey p.2.i p.2.j

/-- The required set of the spec (§4.4): the viewport box with margin 1,
`[iMin-1, iMax+1] × [jMin-1, jMax+1]` (the box `spawnCellsForViewport` fills). -/
def inSpawnBox (b : Bounds) (i j : ℤ) : Prop :=
  ⌊b.south / TILE_DEGREES⌋ - 1 ≤ i ∧ i ≤ ⌊b.north / TILE_DEGREES⌋ + 1 ∧
  ⌊b.west / TILE_DEGREES⌋ - 1 ≤ j ∧ j ≤ ⌊b.east / TILE_DEGREES⌋ + 1

instance (b : Bounds) (i j : ℤ) : Decidable (inSpawnBox b i j) := by
  unfold inSpawnBox
  infer_instance

/-- The box `despawnCellsOutsideViewport` keeps: the viewport box with
margin 2, `[iMin-2, iMax+2] × [jMin-2, jMax+2]`. -/
def inDespawnBox (b : Bounds) (i j : ℤ) : Prop :=
  ⌊b.south / TILE_DEGREES⌋ - 2 ≤ i ∧ i ≤ ⌊b.north / TILE_DEGREES⌋ + 2 ∧
  ⌊b.west / TILE_DEGREES⌋ - 2 ≤ j ∧ j ≤ ⌊b.east / TILE_DEGREES⌋ + 2

instance (b : Bounds) (i j : ℤ) : Decidable (inDespawnBox b i j) := by
  unfold inDespawnBox
  infer_instance

/-- C5 as stated: after a sync, the materialized set equals the required set
`[iMin-1, iMax+1] × [jMin-1, jMax+1]` exactly. -/
def C5Statement : Prop :=
  ∀ (nat : ℤ → ℤ → Option ℚ) (b : Bounds) (s : GameState) (i j : ℤ),
    (mapGet (syncViewport nat b s).flyweightCells (cellKey i j)).isSome = true ↔
      inSpawnBox b i j

/-- C5 counterexample: with a degenerate viewport at the origin, the required
set is [-1,1] × [-1,1], but a previously materialized cell at (2, 0) — inside
the eviction margin of 2 — survives the sync while not being in the required
set, so the materialized set is strictly larger than the required set. -/
theorem sync_required_set_counterexample : ¬ C5Statement := by
  intro h
  have h2 := (h (fun _ _ => none) ⟨0, 0, 0, 0⟩
    ⟨none, (0, 0), [((2, 0), ⟨2, 0, none⟩)], []⟩ 2 0).mp (by decide)
  exact absurd h2 (by decide)

theorem mem_intRange {a b x : ℤ} : x ∈ intRange a b ↔ a ≤ x ∧ x ≤ b := by
  unfold intRange
  constructor
  · intro hx
    rcases List.mem_map.mp hx with ⟨n, hn, rfl⟩
    rw [List.mem_range] at hn
    have h0 : (0 : ℤ) ≤ (n : ℤ) := Int.natCast_nonneg n
    have h1 : (n : ℤ) < ((b + 1 - a).toNat : ℤ) := by exact_mod_cast hn
    omega
  · rintro ⟨h1, h2⟩
    refine List.mem_map.mpr ⟨(x - a).toNat, ?_, ?_⟩
    · rw [List.mem_range]
      omega
    · omega

/-- A materialized cell with its own coordinates at its own key. -/
def GoodAt (s : GameState) (i j : ℤ) : Prop :=
  ∃ c, mapGet s.flyweightCells (cellKey i j) = some c ∧ c.i = i ∧ c.j = j

theorem fc_spawnCell (nat : ℤ → ℤ → Option ℚ) (i j : ℤ) {s : GameState}
    (h : FlyConsistent s) : FlyConsistent (spawnCell nat i j s) := by
  intro p hp
  rcases mem_mapSet hp with h1 | h1
  · exact h p h1
  · rw [h1]

theorem fc_materializeCell (nat : ℤ → ℤ → Option ℚ) (i j : ℤ) {s : GameState}
    (h : FlyConsistent s) : FlyConsistent (materializeCell nat i j s) := by
  unfold materializeCell
  split
  · exact h
  · exact fc_spawnCell nat i j h

theorem good_materializeCell (nat : ℤ → ℤ → Option ℚ) {s : GameState} {i j : ℤ}
    (i2 j2 : ℤ) (h : GoodAt s i j) : GoodAt (materializeCell nat i2 j2 s) i j := by
  obtain ⟨c, hc, hci, hcj⟩ := h
  unfold materializeCell
  split
  case isTrue => exact ⟨c, hc, hci, hcj⟩
  case isFalse habs =>
      unfold spawnCell
      by_cases hk : cellKey i j = cellKey i2 j2
      · exact absurd (hk ▸ hc ▸ rfl : (mapGet s.flyweightCells (cellKey i2 j2)).isSome = true)
          (by simpa using habs)
      · refine ⟨c, ?_, hci, hcj⟩
        simp only
        rw [mapGet_mapSet, if_neg hk]
        exact hc

theorem good_self_materializeCell (nat : ℤ → ℤ → Option ℚ) {s : GameState}
    (i j : ℤ) (hfc : FlyConsistent s) : GoodAt (materializeCell nat i j s) i j := by
  unfold materializeCell
  split
  case isTrue hsome =>
      rw [Option.isSome_iff_exists] at hsome
      obtain ⟨c, hc⟩ := hsome
      have hk := hfc (cellKey i j, c) (mapGet_mem hc)
      simp only [cellKey, Prod.mk.injEq] at hk
      exact ⟨c, hc, hk.1.symm, hk.2.symm⟩
  case isFalse =>
      unfold spawnCell
      exact ⟨_, mapGet_mapSet_self _ _ _, rfl, rfl⟩

theorem good_foldRow (nat : ℤ → ℤ → Option ℚ) (i2 : ℤ) (js : List ℤ)
    {s : GameState} {i j : ℤ} (h : GoodAt s i j) :
    GoodAt (js.foldl (fun s j2 => materializeCell nat i2 j2 s) s) i j := by
  refine foldl_invariant _ (fun t => GoodAt t i j) _ _ h ?_
  intro x y _ hx
  exact good_materializeCell nat i2 y hx

theorem fc_foldRow (nat : ℤ → ℤ → Option ℚ) (i2 : ℤ) (js : List ℤ)
    {s : GameState} (h : FlyConsistent s) :
    FlyConsistent (js.foldl (fun s j2 => materializeCell nat i2 j2 s) s) := by
  refine foldl_invariant _ FlyConsistent _ _ h ?_
  intro x y _ hx
  exact fc_materializeCell nat i2 y hx

theorem good_foldRow_all (nat : ℤ → ℤ → Option ℚ) (i2 : ℤ) (js : List ℤ)
    {s : GameState} (hfc : FlyConsistent s) :
    FlyConsistent (js.foldl (fun s j2 => materializeCell nat i2 j2 s) s) ∧
    ∀ j ∈ js, GoodAt (js.foldl (fun s j2 => materializeCell nat i2 j2 s) s) i2 j := by
  induction js generalizing s with
  | nil => exact ⟨hfc, by simp⟩
  | cons j2 rest ih =>
      simp only [List.foldl_cons]
      obtain ⟨hfc2, hall⟩ := ih (fc_materializeCell nat i2 j2 hfc)
      refine ⟨hfc2, ?_⟩
      intro j hj
      rcases List.mem_cons.mp hj with hj | hj
      · subst hj
        exact good_foldRow nat i2 rest (good_self_materializeCell nat i2 j hfc)
      · exact hall j hj

theorem good_foldGrid_all (nat : ℤ → ℤ → Option ℚ) (is js : List ℤ)
    {s : GameState} (hfc : FlyConsistent s) :
    FlyConsistent (is.foldl
      (fun s i2 => js.foldl (fun s j2 => materializeCell nat i2 j2 s) s) s) ∧
    ∀ i ∈ is, ∀ j ∈ js, GoodAt (is.foldl
      (fun s i2 => js.foldl (fun s j2 => materializeCell nat i2 j2 s) s) s) i j := by
  induction is generalizing s with
  | nil => exact ⟨hfc, by simp⟩
  | cons i2 rest ih =>
      simp only [List.foldl_cons]
      obtain ⟨hfc1, hrow⟩ := good_foldRow_all nat i2 js hfc
      obtain ⟨hfc2, hall⟩ := ih hfc1
      refine ⟨hfc2, ?_⟩
      intro i hi j hj
      rcases List.mem_cons.mp hi with hi | hi
      · subst hi
        refine foldl_invariant _ (fun t => GoodAt t i j) _ _ (hrow j hj) ?_
        intro x y _ hx
        exact good_foldRow nat y js hx
      · exact hall i hi j hj

/-- Everything in the required (margin-1) box is materialized by the spawn
pass, with its own coordinates. -/
theorem spawnCellsForViewport_covers (nat : ℤ → ℤ → Option ℚ) (b : Bounds)
    {s : GameState} (hfc : FlyConsistent s) {i j : ℤ} (hbox : inSpawnBox b i j) :
    GoodAt (spawnCellsForViewport nat b s) i j := by
  unfold spawnCellsForViewport
  obtain ⟨h1, h2, h3, h4⟩ := hbox
  exact (good_foldGrid_all nat _ _ hfc).2 i (mem_intRange.mpr ⟨h1, h2⟩)
    j (mem_intRange.mpr ⟨h3, h4⟩)

/-- After a sync, every cell of the required (margin-1) box is materialized
with its own coordinates. -/
theorem syncViewport_covers (nat : ℤ → ℤ → Option ℚ) (b : Bounds)
    {s : GameState} (hfc : FlyConsistent s) {i j : ℤ} (hbox : inSpawnBox b i j) :
    ∃ c2, mapGet (syncViewport nat b s).flyweightCells (cellKey i j) = some c2 ∧
      c2.i = i ∧ c2.j = j := by
  obtain ⟨c2, hc2, hci, hcj⟩ := spawnCellsForViewport_covers nat b hfc hbox
  refine ⟨c2, ?_, hci, hcj⟩
  unfold syncViewport despawnCellsOutsideViewport
  simp only
  refine mapGet_filter_of_mapGet hc2 ?_
  have hdbox : inDespawnBox b c2.i c2.j := by
    obtain ⟨h1, h2, h3, h4⟩ := hbox
    refine ⟨?_, ?_, ?_, ?_⟩ <;> omega
  unfold outOfBox
  obtain ⟨h1, h2, h3, h4⟩ := hdbox
  simp only [Bool.not_eq_true']
  simp only [decide_eq_false_iff_not, Bool.or_eq_false_iff]
  refine ⟨⟨⟨by omega, by omega⟩, by omega⟩, by omega⟩

/-- After a sync, every materialized cell lies inside the margin-2 box. -/
theorem syncViewport_bounded (nat : ℤ → ℤ → Option ℚ) (b : Bounds)
    {s : GameState} {k : CellKey} {c : Cell}
    (hget : mapGet (syncViewport nat b s).flyweightCells k = some c) :
    inDespawnBox b c.i c.j := by
  unfold syncViewport despawnCellsOutsideViewport at hget
  simp only at hget
  have hf := filter_pred_of_mapGet hget
  simp only [Bool.not_eq_true'] at hf
  unfold outOfBox at hf
  simp only [decide_eq_false_iff_not, Bool.or_eq_false_iff] at hf
  obtain ⟨⟨⟨ha, hb⟩, hc2⟩, hd⟩ := hf
  refine ⟨by omega, by omega, by omega, by omega⟩

/-- C5 (amended): after a sync, every cell of the required set
`[iMin-1, iMax+1] × [jMin-1, jMax+1]` is materialized, and every materialized
cell lies inside the eviction box `[iMin-2, iMax+2] × [jMin-2, jMax+2]`; a
previously materialized cell in the one-cell ring between the two boxes
survives the sync, so the materialized set can be strictly larger than the
required set. -/
theorem syncViewport_coverage (nat : ℤ → ℤ → Option ℚ) (b : Bounds)
    (s : GameState) (i j : ℤ) (k : CellKey) (c : Cell) (hfc : FlyConsistent s) :
    (inSpawnBox b i j →
      ∃ c2, mapGet (syncViewport nat b s).flyweightCells (cellKey i j) = some c2 ∧
        c2.i = i ∧ c2.j = j) ∧
    (mapGet (syncViewport nat b s).flyweightCells k = some c →
      inDespawnBox b c.i c.j) :=
  ⟨fun hbox => syncViewport_covers nat b hfc hbox,
   fun hget => syncViewport_bounded nat b hget⟩

/-- Witness for C5 (amended) at the concrete counterexample input: cell (0,0)
of the required box is materialized after sync, and the surviving ring cell
(2,0) lies inside the eviction box. -/
theorem syncViewport_coverage_witness :
    (inSpawnBox ⟨0, 0, 0, 0⟩ 0 0 →
      ∃ c2, mapGet (syncViewport (fun _ _ => none) ⟨0, 0, 0, 0⟩
          ⟨none, (0, 0), [((2, 0), ⟨2, 0, none⟩)], []⟩).flyweightCells
          (cellKey 0 0) = some c2 ∧ c2.i = 0 ∧ c2.j = 0) ∧
    (mapGet (syncViewport (fun _ _ => none) ⟨0, 0, 0, 0⟩
        ⟨none, (0, 0), [((2, 0), ⟨2, 0, none⟩)], []⟩).flyweightCells (2, 0) =
          some ⟨2, 0, none⟩ →
      inDespawnBox ⟨0, 0, 0, 0⟩ 2 0) := by
  exact syncViewport_coverage (fun _ _ => none) ⟨0, 0, 0, 0⟩
    ⟨none, (0, 0), [((2, 0), ⟨2, 0, none⟩)], []⟩ 0 0 (2, 0) ⟨2, 0, none⟩
    (by unfold FlyConsistent; decide)

/-! ## C4: token values in reachable states -/

/-- The value set the spec's data model allows for a token. -/
def TokenValueSet : Set ℚ := {1, 2, 4, 8, 16, 32, 64, 128}

/-- C4 as stated: whenever the generator only produces values from the
allowed set, every reachable state has every effective cell token and the
inventory token inside {1, 2, 4, 8, 16, 32, 64, 128}. -/
def C4Statement : Prop :=
  ∀ nat : ℤ → ℤ → Option ℚ, (∀ i j v, nat i j = some v → v ∈ TokenValueSet) →
    ∀ s, Reachable nat initState s →
      (∀ v, s.playerInventory = some v → v ∈ TokenValueSet) ∧
      (∀ i j v, effState nat s i j = some v → v ∈ TokenValueSet)

/-- The generator that puts a token of value 4 in every cell. -/
def natFour : ℤ → ℤ → Option ℚ := fun _ _ => some 4

theorem runOps_append (nat : ℤ → ℤ → Option ℚ) (s : GameState)
    (l1 l2 : List Op) : runOps nat s (l1 ++ l2) = runOps nat (runOps nat s l1) l2 := by
  unfold runOps
  exact List.foldl_append _ _ _ _

/-! The counterexample to C4 is a 64-leaf merge tournament: with natural
token 4 in every cell, walking to cells and merging pairwise doubles values
without bound, reaching 4 · 2^6 = 256 at cell (0, 0).  The play sequence is
constructed by induction on the tournament depth, using the reachable-state
invariant to track the store-level state through moves, syncs and clicks. -/

/-- The store-level effective state: memento if present, else natural. -/
def memEff (nat : ℤ → ℤ → Option ℚ) (s : GameState) (i j : ℤ) : Option ℚ :=
  match mapGet s.cellMementos (cellKey i j) with
  | some m => m.token
  | none => nat i j

theorem memEff_eq_of_get {nat : ℤ → ℤ → Option ℚ} {s2 s1 : GameState} {i j : ℤ}
    (h : mapGet s2.cellMementos (cellKey i j) = mapGet s1.cellMementos (cellKey i j)) :
    memEff nat s2 i j = memEff nat s1 i j := by
  unfold memEff
  rw [h]

theorem memEff_of_get_some {nat : ℤ → ℤ → Option ℚ} {s : GameState} {i j : ℤ}
    {m : CellMemento} (h : mapGet s.cellMementos (cellKey i j) = some m) :
    memEff nat s i j = m.token := by
  unfold memEff
  rw [h]

/-- Under the invariant, a materialized cell carries its store-level state. -/
theorem token_eq_memEff {nat : ℤ → ℤ → Option ℚ} {s : GameState} {i j : ℤ}
    {c : Cell} (hInv : Inv nat s)
    (hfly : mapGet s.flyweightCells (cellKey i j) = some c) :
    c.token = memEff nat s i j := by
  obtain ⟨hnd, hfc, hmc, hwt⟩ := hInv
  have hk : cellKey i j = cellKey c.i c.j := hfc (cellKey i j, c) (mapGet_mem hfly)
  have hij : c.i = i ∧ c.j = j := by
    have h1 := congrArg Prod.fst hk
    have h2 := congrArg Prod.snd hk
    simp only [cellKey] at h1 h2
    exact ⟨h1.symm, h2.symm⟩
  rcases hwt (cellKey i j, c) (mapGet_mem hfly) with hw | hw
  · unfold memEff
    simp only at hw
    rw [hw]
  · unfold memEff
    simp only at hw
    rw [hw.1, hw.2, hij.1, hij.2]

/-- Under the invariant, the displayed effective state is the store-level
effective state. -/
theorem effState_eq_memEff {nat : ℤ → ℤ → Option ℚ} {s : GameState}
    (hInv : Inv nat s) (i j : ℤ) : effState nat s i j = memEff nat s i j := by
  unfold effState
  cases hfly : mapGet s.flyweightCells (cellKey i j) with
  | some c => exact token_eq_memEff hInv hfly
  | none =>
      unfold memEff
      rfl

/-- A sync never changes the memento map of an invariant-satisfying state. -/
theorem memGet_syncViewport (nat : ℤ → ℤ → Option ℚ) (b : Bounds)
    {s : GameState} (hInv : Inv nat s) :
    ∀ k, mapGet (syncViewport nat b s).cellMementos k = mapGet s.cellMementos k := by
  intro k
  obtain ⟨hnd, hfc, hmc, hwt⟩ := inv_spawnCellsForViewport nat b hInv
  have hcells : ∀ p ∈ (spawnCellsForViewport nat b s).flyweightCells,
      mapGet (spawnCellsForViewport nat b s).cellMementos (cellKey p.2.i p.2.j) =
        some ⟨p.2.i, p.2.j, p.2.token⟩ ∨
      (mapGet (spawnCellsForViewport nat b s).cellMementos (cellKey p.2.i p.2.j) = none ∧
        p.2.token = nat p.2.i p.2.j) := by
    intro p hp
    rw [← hfc p hp]
    exact hwt p hp
  unfold syncViewport despawnCellsOutsideViewport
  simp only
  rw [despawnPass_mem_ext nat _ _ _ _ _ _ hcells k]
  rw [(spawnCellsForViewport_frame nat b s).2.2]

/-- What a move-to event does: it sets the player position, keeps the
inventory, keeps the memento map, and preserves the invariant. -/
theorem moveTo_effects (nat : ℤ → ℤ → Option ℚ) (lat lng : ℚ) (b : Bounds)
    {s : GameState} (hInv : Inv nat s) :
    (applyOp nat s (Op.moveTo lat lng b)).playerPos = (lat, lng) ∧
    (applyOp nat s (Op.moveTo lat lng b)).playerInventory = s.playerInventory ∧
    (∀ k, mapGet (applyOp nat s (Op.moveTo lat lng b)).cellMementos k =
      mapGet s.cellMementos k) ∧
    Inv nat (applyOp nat s (Op.moveTo lat lng b)) := by
  have hInv2 : Inv nat ({ s with playerPos := (lat, lng) } : GameState) := by
    obtain ⟨h1, h2, h3, h4⟩ := hInv
    exact ⟨h1, h2, h3, h4⟩
  show (syncViewport nat b _).playerPos = (lat, lng) ∧
    (syncViewport nat b _).playerInventory = s.playerInventory ∧
    (∀ k, mapGet (syncViewport nat b _).cellMementos k = mapGet s.cellMementos k) ∧
    Inv nat (syncViewport nat b _)
  refine ⟨(syncViewport_frame nat b _).1, (syncViewport_frame nat b _).2, ?_,
    inv_syncViewport nat b hInv2⟩
  intro k
  exact memGet_syncViewport nat b hInv2 k

/-- A degenerate viewport at a point (the renderer's bounds after panning
there). -/
def ptBounds (p : ℚ × ℚ) : Bounds := ⟨p.1, p.1, p.2, p.2⟩

/-- The move-to-cell-center op used by the tournament script. -/
def moveToCenterOp (c : ℤ) : Op :=
  Op.moveTo (cellCenter 0 c).1 (cellCenter 0 c).2 (ptBounds (cellCenter 0 c))

/-- Panning to the center of cell (0, c) puts cell (0, c) in the required
box, so after the sync it is materialized. -/
theorem goodAt_moveToCenter (nat : ℤ → ℤ → Option ℚ) (c : ℤ) {s : GameState}
    (hInv : Inv nat s) : GoodAt (applyOp nat s (moveToCenterOp c)) 0 c := by
  have hfloor1 : ⌊(cellCenter 0 c).1 / TILE_DEGREES⌋ = 0 := by
    have := congrArg Prod.fst (latLngToCellId_center 0 c)
    simpa [latLngToCellId] using this
  have hfloor2 : ⌊(cellCenter 0 c).2 / TILE_DEGREES⌋ = c := by
    have := congrArg Prod.snd (latLngToCellId_center 0 c)
    simpa [latLngToCellId] using this
  have hbox : inSpawnBox (ptBounds (cellCenter 0 c)) 0 c := by
    unfold inSpawnBox ptBounds
    simp only
    rw [hfloor1, hfloor2]
    refine ⟨by omega, by omega, by omega, by omega⟩
  have hfc : FlyConsistent ({ s with playerPos := cellCenter 0 c } : GameState) :=
    fun p hp => hInv.2.1 p hp
  show GoodAt (syncViewport nat (ptBounds (cellCenter 0 c)) _) 0 c
  obtain ⟨c2, hc2, hci, hcj⟩ := syncViewport_covers nat _ hfc hbox
  have hpair : ({ s with playerPos := cellCenter 0 c } : GameState) =
      { s with playerPos := ((cellCenter 0 c).1, (cellCenter 0 c).2) } := by
    rfl
  exact ⟨c2, hc2, hci, hcj⟩

/-- The player's cell after panning to the center of cell (0, c). -/
theorem playerCell_moveToCenter (nat : ℤ → ℤ → Option ℚ) (c : ℤ)
    {s : GameState} (hInv : Inv nat s) :
    latLngToCellId (applyOp nat s (moveToCenterOp c)).playerPos = (0, c) := by
  have hpos := (moveTo_effects nat (cellCenter 0 c).1 (cellCenter 0 c).2
    (ptBounds (cellCenter 0 c)) hInv).1
  unfold moveToCenterOp at hpos ⊢
  rw [hpos]
  have : ((cellCenter 0 c).1, (cellCenter 0 c).2) = cellCenter 0 c := by
    exact Prod.mk.eta
  rw [this]
  exact latLngToCellId_center 0 c

theorem interact_self_pickup (i j : ℤ) (v : ℚ) :
    interact (i, j) i j none (some v) = (ClickOutcome.pickedUp v, some v, none) := by
  unfold interact
  simp

theorem interact_self_merge (i j : ℤ) (v : ℚ) :
    interact (i, j) i j (some v) (some v) =
      (ClickOutcome.merged (v * 2), none, some (v * 2)) := by
  unfold interact
  simp

/-- A click that picks up: empty inventory, a token of value v on the cell
the player is standing on.  The inventory receives v, the cell and its
memento become empty, and nothing else in the memento map changes. -/
theorem clickCell_pickup (nat : ℤ → ℤ → Option ℚ) {s : GameState} {i j : ℤ}
    {v : ℚ} (hInv : Inv nat s) (hpc : latLngToCellId s.playerPos = (i, j))
    (hinv : s.playerInventory = none) (heff : memEff nat s i j = some v)
    (hgood : GoodAt s i j) :
    (clickCell i j s).1.playerInventory = some v ∧
    mapGet (clickCell i j s).1.cellMementos (cellKey i j) = some ⟨i, j, none⟩ ∧
    (∀ k, k ≠ cellKey i j →
      mapGet (clickCell i j s).1.cellMementos k = mapGet s.cellMementos k) := by
  obtain ⟨c, hfly, hci, hcj⟩ := hgood
  have htok : c.token = some v := (token_eq_memEff hInv hfly).trans heff
  have hint : interact (latLngToCellId s.playerPos) i j s.playerInventory c.token
      = (ClickOutcome.pickedUp v, some v, none) := by
    rw [hpc, hinv, htok]
    exact interact_self_pickup i j v
  have hkey : cellKey c.i c.j = cellKey i j := by
    rw [hci, hcj]
  unfold clickCell
  rw [hfly]
  simp only [hint, ClickOutcome.mutating, if_true]
  refine ⟨?_, ?_, ?_⟩
  · simp
  · unfold saveCellMemento
    simp only
    rw [hkey]
    rw [mapGet_mapSet_self]
    rw [hci, hcj]
  · intro k hk
    unfold saveCellMemento
    simp only
    rw [hkey]
    rw [mapGet_mapSet]
    rw [if_neg hk]

/-- A click that merges: inventory v, a token of the same value v on the cell
the player is standing on.  The inventory empties, the cell and its memento
hold 2v, and nothing else in the memento map changes. -/
theorem clickCell_merge (nat : ℤ → ℤ → Option ℚ) {s : GameState} {i j : ℤ}
    {v : ℚ} (hInv : Inv nat s) (hpc : latLngToCellId s.playerPos = (i, j))
    (hinv : s.playerInventory = some v) (heff : memEff nat s i j = some v)
    (hgood : GoodAt s i j) :
    (clickCell i j s).1.playerInventory = none ∧
    mapGet (clickCell i j s).1.cellMementos (cellKey i j) =
      some ⟨i, j, some (v * 2)⟩ ∧
    (∀ k, k ≠ cellKey i j →
      mapGet (clickCell i j s).1.cellMementos k = mapGet s.cellMementos k) := by
  obtain ⟨c, hfly, hci, hcj⟩ := hgood
  have htok : c.token = some v := (token_eq_memEff hInv hfly).trans heff
  have hint : interact (latLngToCellId s.playerPos) i j s.playerInventory c.token
      = (ClickOutcome.merged (v * 2), none, some (v * 2)) := by
    rw [hpc, hinv, htok]
    exact interact_self_merge i j v
  have hkey : cellKey c.i c.j = cellKey i j := by
    rw [hci, hcj]
  unfold clickCell
  rw [hfly]
  simp only [hint, ClickOutcome.mutating, if_true]
  refine ⟨?_, ?_, ?_⟩
  · simp
  · unfold saveCellMemento
    simp only
    rw [hkey]
    rw [mapGet_mapSet_self]
    rw [hci, hcj]
  · intro k hk
    unfold saveCellMemento
    simp only
    rw [hkey]
    rw [mapGet_mapSet]
    rw [if_neg hk]

theorem clickCell_pos (i j : ℤ) (s : GameState) :
    (clickCell i j s).1.playerPos = s.playerPos := by
  unfold clickCell
  cases hfly : mapGet s.flyweightCells (cellKey i j) with
  | none => rfl
  | some cell =>
      dsimp only
      split
      · rfl
      · rfl

theorem inv_runOps (nat : ℤ → ℤ → Option ℚ) (l : List Op) {s : GameState}
    (h : Inv nat s) : Inv nat (runOps nat s l) := by
  unfold runOps
  refine foldl_invariant _ (Inv nat) _ _ h ?_
  intro x op _ hx
  exact inv_applyOp nat op hx

theorem runOps_cons (nat : ℤ → ℤ → Option ℚ) (s : GameState) (op : Op)
    (l : List Op) : runOps nat s (op :: l) = runOps nat (applyOp nat s op) l := rfl

theorem applyOp_click_eq (nat : ℤ → ℤ → Option ℚ) (i j : ℤ) (s : GameState) :
    applyOp nat s (Op.click i j) = (clickCell i j s).1 := rfl

theorem runOps_nil (nat : ℤ → ℤ → Option ℚ) (s : GameState) :
    runOps nat s [] = s := rfl

/-- `moveTo_effects` specialized to the move-to-cell-center op. -/
theorem moveToCenter_effects (nat : ℤ → ℤ → Option ℚ) (c : ℤ) {s : GameState}
    (hInv : Inv nat s) :
    (applyOp nat s (moveToCenterOp c)).playerPos = cellCenter 0 c ∧
    (applyOp nat s (moveToCenterOp c)).playerInventory = s.playerInventory ∧
    (∀ k, mapGet (applyOp nat s (moveToCenterOp c)).cellMementos k =
      mapGet s.cellMementos k) ∧
    Inv nat (applyOp nat s (moveToCenterOp c)) := by
  have h := moveTo_effects nat (cellCenter 0 c).1 (cellCenter 0 c).2
    (ptBounds (cellCenter 0 c)) hInv
  unfold moveToCenterOp
  refine ⟨?_, h.2.1, h.2.2.1, h.2.2.2⟩
  rw [h.1]

/-- Build a token of value 4 · 2^n in cell (0, b) out of the natural tokens
of the strip (0, b) … (0, b + 2^n − 1), by a merge tournament.  Everything
the script does to the memento map stays inside the strip. -/
theorem buildTournament (n : ℕ) : ∀ (b : ℤ) (s : GameState), Inv natFour s →
    s.playerInventory = none →
    (∀ t : ℤ, b ≤ t → t < b + 2 ^ n → mapGet s.cellMementos (cellKey 0 t) = none) →
    ∃ l : List Op,
      Inv natFour (runOps natFour s l) ∧
      (runOps natFour s l).playerInventory = none ∧
      memEff natFour (runOps natFour s l) 0 b = some (4 * 2 ^ n) ∧
      (∀ k : CellKey, (k.1 = 0 → k.2 < b ∨ b + 2 ^ n ≤ k.2) →
        mapGet (runOps natFour s l).cellMementos k = mapGet s.cellMementos k) := by
  induction n with
  | zero =>
      intro b s hInv hinv hstrip
      refine ⟨[], hInv, hinv, ?_, fun k _ => rfl⟩
      unfold memEff
      rw [runOps_nil, hstrip b le_rfl (by norm_num)]
      unfold natFour
      norm_num
  | succ n ih =>
      intro b s hInv hinv hstrip
      have hpow : (0 : ℤ) < 2 ^ n := by positivity
      have hpows : (2 : ℤ) ^ (n + 1) = 2 ^ n + 2 ^ n := by ring
      obtain ⟨l1, hInv1, hinv1, heff1, hframe1⟩ := ih b s hInv hinv
        (fun t h1 h2 => hstrip t h1 (by omega))
      set s1 := runOps natFour s l1 with hs1
      set src := b + 2 ^ n with hsrc
      have hstrip2 : ∀ t : ℤ, src ≤ t → t < src + 2 ^ n →
          mapGet s1.cellMementos (cellKey 0 t) = none := by
        intro t h1 h2
        rw [hframe1 (cellKey 0 t) (fun _ => Or.inr (by show b + 2 ^ n ≤ t; omega))]
        exact hstrip t (by omega) (by omega)
      obtain ⟨l2, hInv2, hinv2, heff2, hframe2⟩ := ih src s1 hInv1 hinv1 hstrip2
      set s2 := runOps natFour s1 l2 with hs2
      have heff2b : memEff natFour s2 0 b = some (4 * 2 ^ n) := by
        rw [memEff_eq_of_get (hframe2 (cellKey 0 b)
          (fun _ => Or.inl (by show b < src; omega)))]
        exact heff1
      -- step 1: walk to the source cell
      set s3 := applyOp natFour s2 (moveToCenterOp src) with hs3
      have hmov3 := moveToCenter_effects natFour src hInv2
      rw [← hs3] at hmov3
      obtain ⟨hpos3, hinv3, hmem3, hInv3⟩ := hmov3
      have hgood3 : GoodAt s3 0 src := by
        rw [hs3]
        exact goodAt_moveToCenter natFour src hInv2
      have hpc3 : latLngToCellId s3.playerPos = (0, src) := by
        rw [hs3]
        exact playerCell_moveToCenter natFour src hInv2
      have heff3 : memEff natFour s3 0 src = some (4 * 2 ^ n) := by
        rw [memEff_eq_of_get (hmem3 (cellKey 0 src))]
        exact heff2
      -- step 2: pick the source token up
      set s4 := applyOp natFour s3 (Op.click 0 src) with hs4
      have hs4b : s4 = (clickCell 0 src s3).1 :=
        hs4.trans (applyOp_click_eq natFour 0 src s3)
      have hclick4 := clickCell_pickup natFour hInv3 hpc3 (hinv3.trans hinv2)
        heff3 hgood3
      rw [← hs4b] at hclick4
      obtain ⟨hinv4, hmemsrc4, hframe4⟩ := hclick4
      have hInv4 : Inv natFour s4 := by
        rw [hs4]
        exact inv_applyOp natFour (Op.click 0 src) hInv3
      -- step 3: walk to the target cell
      set s5 := applyOp natFour s4 (moveToCenterOp b) with hs5
      have hmov5 := moveToCenter_effects natFour b hInv4
      rw [← hs5] at hmov5
      obtain ⟨hpos5, hinv5, hmem5, hInv5⟩ := hmov5
      have hgood5 : GoodAt s5 0 b := by
        rw [hs5]
        exact goodAt_moveToCenter natFour b hInv4
      have hpc5 : latLngToCellId s5.playerPos = (0, b) := by
        rw [hs5]
        exact playerCell_moveToCenter natFour b hInv4
      have hkeyne : cellKey 0 b ≠ cellKey 0 src := by
        intro hcon
        have h2 : b = src := congrArg Prod.snd hcon
        omega
      have heff5 : memEff natFour s5 0 b = some (4 * 2 ^ n) := by
        rw [memEff_eq_of_get (hmem5 (cellKey 0 b))]
        rw [memEff_eq_of_get (hframe4 (cellKey 0 b) hkeyne)]
        rw [memEff_eq_of_get (hmem3 (cellKey 0 b))]
        exact heff2b
      -- step 4: merge
      set s6 := applyOp natFour s5 (Op.click 0 b) with hs6
      have hs6b : s6 = (clickCell 0 b s5).1 :=
        hs6.trans (applyOp_click_eq natFour 0 b s5)
      have hclick6 := clickCell_merge natFour hInv5 hpc5 (hinv5.trans hinv4)
        heff5 hgood5
      rw [← hs6b] at hclick6
      obtain ⟨hinv6, hmemb6, hframe6⟩ := hclick6
      have hInv6 : Inv natFour s6 := by
        rw [hs6]
        exact inv_applyOp natFour (Op.click 0 b) hInv5
      -- assemble
      refine ⟨l1 ++ (l2 ++ [moveToCenterOp src, Op.click 0 src,
        moveToCenterOp b, Op.click 0 b]), ?_⟩
      have hrun : runOps natFour s (l1 ++ (l2 ++ [moveToCenterOp src,
          Op.click 0 src, moveToCenterOp b, Op.click 0 b])) = s6 := by
        rw [runOps_append, runOps_append, ← hs1, ← hs2]
        rw [runOps_cons, ← hs3, runOps_cons, ← hs4, runOps_cons, ← hs5,
          runOps_cons, ← hs6, runOps_nil]
      rw [hrun]
      refine ⟨hInv6, hinv6, ?_, ?_⟩
      · rw [memEff_of_get_some hmemb6]
        show some (4 * 2 ^ n * 2) = some ((4 : ℚ) * 2 ^ (n + 1))
        rw [pow_succ, mul_assoc]
      · intro k hk
        have hkb : k ≠ cellKey 0 b := by
          intro hcon
          subst hcon
          rcases hk rfl with h1 | h1
          · have h2 : b < b := h1
            omega
          · have h2 : b + 2 ^ (n + 1) ≤ b := h1
            omega
        have hks : k ≠ cellKey 0 src := by
          intro hcon
          subst hcon
          rcases hk rfl with h1 | h1
          · have h2 : src < b := h1
            omega
          · have h2 : b + 2 ^ (n + 1) ≤ src := h1
            omega
        rw [hframe6 k hkb, hmem5 k, hframe4 k hks, hmem3 k]
        rw [hframe2 k ?_, hframe1 k ?_]
        · intro hk1
          rcases hk hk1 with h1 | h1
          · exact Or.inl h1
          · exact Or.inr (by omega)
        · intro hk1
          rcases hk hk1 with h1 | h1
          · exact Or.inl (by omega)
          · exact Or.inr (by omega)

/-- C4 counterexample: with a generator putting token 4 everywhere (values in
the allowed set), a 64-leaf merge tournament on the cells (0, 0) … (0, 63) is
a legal play sequence that leaves cell (0, 0) holding 4 · 2^6 = 256 — outside
{1, …, 128}.  Merging has no upper bound. -/
theorem token_bound_counterexample : ¬ C4Statement := by
  intro h
  have hnat : ∀ i j v, natFour i j = some v → v ∈ TokenValueSet := by
    intro i j v hv
    unfold natFour at hv
    injection hv with hv
    subst hv
    simp [TokenValueSet]
  obtain ⟨l, hInvL, _, heffL, _⟩ := buildTournament 6 0 initState
    (inv_initState natFour) rfl (fun t _ _ => rfl)
  have hr : Reachable natFour initState (runOps natFour initState l) :=
    reachable_runOps natFour (Relation.ReflTransGen.refl) l
  have heff : effState natFour (runOps natFour initState l) 0 0 = some 256 := by
    rw [effState_eq_memEff hInvL 0 0, heffL]
    norm_num
  have h2 := (h _ hnat _ hr).2 0 0 256 heff
  norm_num [TokenValueSet] at h2

/-- A rational is a (nonnegative) power of two. -/
def IsPow2 (q : ℚ) : Prop := ∃ k : ℕ, q = 2 ^ k

theorem isPow2_double {v : ℚ} (h : IsPow2 v) : IsPow2 (v * 2) := by
  obtain ⟨k, rfl⟩ := h
  exact ⟨k + 1, by ring⟩

/-- All token values in a state are powers of two. -/
def AllPow2 (s : GameState) : Prop :=
  (∀ v, s.playerInventory = some v → IsPow2 v) ∧
  (∀ p ∈ s.flyweightCells, ∀ v, p.2.token = some v → IsPow2 v) ∧
  (∀ p ∈ s.cellMementos, ∀ v, p.2.token = some v → IsPow2 v)

theorem interact_pow2 (pc : CellKey) (i j : ℤ) (inv tok : Option ℚ)
    (hinv : ∀ v, inv = some v → IsPow2 v) (htok : ∀ v, tok = some v → IsPow2 v) :
    (∀ v, (interact pc i j inv tok).2.1 = some v → IsPow2 v) ∧
    (∀ v, (interact pc i j inv tok).2.2 = some v → IsPow2 v) := by
  unfold interact
  split
  · exact ⟨hinv, htok⟩
  · rcases inv with _ | a <;> rcases tok with _ | w
    · exact ⟨hinv, htok⟩
    · exact ⟨htok, by simp⟩
    · exact ⟨by simp, hinv⟩
    · dsimp only
      split
      · constructor
        · simp
        · intro v hv
          injection hv with hv
          subst hv
          exact isPow2_double (hinv a rfl)
      · exact ⟨hinv, htok⟩

theorem allPow2_spawnCell (nat : ℤ → ℤ → Option ℚ)
    (hnat : ∀ i j v, nat i j = some v → IsPow2 v) (i j : ℤ) {s : GameState}
    (h : AllPow2 s) : AllPow2 (spawnCell nat i j s) := by
  obtain ⟨hi, hf, hm⟩ := h
  refine ⟨hi, ?_, hm⟩
  intro p hp v hv
  rcases mem_mapSet hp with h1 | h1
  · exact hf p h1 v hv
  · subst h1
    simp only at hv
    revert hv
    cases hmem : mapGet s.cellMementos (cellKey i j) with
    | some m =>
        intro hv
        exact hm (cellKey i j, m) (mapGet_mem hmem) v hv
    | none =>
        intro hv
        exact hnat i j v hv

theorem allPow2_materializeCell (nat : ℤ → ℤ → Option ℚ)
    (hnat : ∀ i j v, nat i j = some v → IsPow2 v) (i j : ℤ) {s : GameState}
    (h : AllPow2 s) : AllPow2 (materializeCell nat i j s) := by
  unfold materializeCell
  split
  · exact h
  · exact allPow2_spawnCell nat hnat i j h

theorem allPow2_spawnCellsForViewport (nat : ℤ → ℤ → Option ℚ)
    (hnat : ∀ i j v, nat i j = some v → IsPow2 v) (b : Bounds) {s : GameState}
    (h : AllPow2 s) : AllPow2 (spawnCellsForViewport nat b s) := by
  unfold spawnCellsForViewport
  refine foldl_invariant _ AllPow2 _ _ h ?_
  intro x i _ hx
  refine foldl_invariant _ AllPow2 _ _ hx ?_
  intro y j _ hy
  exact allPow2_materializeCell nat hnat i j hy

theorem allPow2_despawn (nat : ℤ → ℤ → Option ℚ) (b : Bounds) {s : GameState}
    (h : AllPow2 s) : AllPow2 (despawnCellsOutsideViewport nat b s) := by
  obtain ⟨hi, hf, hm⟩ := h
  unfold despawnCellsOutsideViewport
  refine ⟨hi, ?_, ?_⟩
  · intro p hp v hv
    exact hf p (List.mem_of_mem_filter hp) v hv
  · intro p hp v hv
    revert hp
    have : ∀ p2 ∈ (despawnPass nat (⌊b.south / TILE_DEGREES⌋ - 2)
        (⌊b.north / TILE_DEGREES⌋ + 2) (⌊b.west / TILE_DEGREES⌋ - 2)
        (⌊b.east / TILE_DEGREES⌋ + 2) s.cellMementos s.flyweightCells).1,
        ∀ v2, p2.2.token = some v2 → IsPow2 v2 := by
      unfold despawnPass
      refine foldl_invariant _
        (fun (acc : List (CellKey × CellMemento) × List CellKey) =>
          ∀ p2 ∈ acc.1, ∀ v2, p2.2.token = some v2 → IsPow2 v2) _ _ hm ?_
      intro acc kc hkc hacc
      dsimp only
      split
      · split
        · intro p2 hp2 v2 hv2
          rcases mem_mapSet hp2 with h1 | h1
          · exact hacc p2 h1 v2 hv2
          · subst h1
            simp only at hv2
            exact hf kc hkc v2 hv2
        · exact hacc
      · exact hacc
    intro hp
    exact this p hp v hv

theorem allPow2_clickCell (i j : ℤ) {s : GameState}
    (h : AllPow2 s) : AllPow2 (clickCell i j s).1 := by
  obtain ⟨hi, hf, hm⟩ := h
  unfold clickCell
  cases hfly : mapGet s.flyweightCells (cellKey i j) with
  | none => exact ⟨hi, hf, hm⟩
  | some cell =>
      dsimp only
      have hcell : ∀ v, cell.token = some v → IsPow2 v :=
        fun v hv => hf (cellKey i j, cell) (mapGet_mem hfly) v hv
      have hio := interact_pow2 (latLngToCellId s.playerPos) i j
        s.playerInventory cell.token hi hcell
      split
      case isTrue =>
        refine ⟨hio.1, ?_, ?_⟩
        · intro p hp v hv
          rcases mem_mapSet hp with h1 | h1
          · exact hf p h1 v hv
          · subst h1
            simp only at hv
            exact hio.2 v hv
        · intro p hp v hv
          unfold saveCellMemento at hp
          rcases mem_mapSet hp with h1 | h1
          · exact hm p h1 v hv
          · subst h1
            simp only at hv
            exact hio.2 v hv
      case isFalse => exact ⟨hi, hf, hm⟩

theorem allPow2_applyOp (nat : ℤ → ℤ → Option ℚ)
    (hnat : ∀ i j v, nat i j = some v → IsPow2 v) {s : GameState} (op : Op)
    (h : AllPow2 s) : AllPow2 (applyOp nat s op) := by
  cases op with
  | click i j => exact allPow2_clickCell i j h
  | moveBy di dj b =>
      exact allPow2_despawn nat b (allPow2_spawnCellsForViewport nat hnat b h)
  | moveTo lat lng b =>
      exact allPow2_despawn nat b (allPow2_spawnCellsForViewport nat hnat b h)
  | mapMove b =>
      exact allPow2_despawn nat b (allPow2_spawnCellsForViewport nat hnat b h)

theorem allPow2_reachable (nat : ℤ → ℤ → Option ℚ)
    (hnat : ∀ i j v, nat i j = some v → IsPow2 v) {s : GameState}
    (h : Reachable nat initState s) : AllPow2 s := by
  induction h with
  | refl =>
      refine ⟨?_, ?_, ?_⟩ <;> simp [initState]
  | tail _ hstep ih =>
      rcases hstep with ⟨op, rfl⟩
      exact allPow2_applyOp nat hnat op ih

/-- C4 (amended): when the generator produces only power-of-two tokens (its
values lie in {1, 2, 4}), every reachable state's effective cell tokens and
inventory token are powers of two.  There is no upper bound: merging doubles
values indefinitely, and 256 and beyond are reachable (see the 128-cap
counterexample). -/
theorem reachable_tokens_pow2 (nat : ℤ → ℤ → Option ℚ)
    (hnat : ∀ i j v, nat i j = some v → IsPow2 v) (s : GameState)
    (hs : Reachable nat initState s) (w : ℚ) (i j : ℤ) (v : ℚ) :
    (s.playerInventory = some w → IsPow2 w) ∧
    (effState nat s i j = some v → IsPow2 v) := by
  obtain ⟨hi, hf, hm⟩ := allPow2_reachable nat hnat hs
  refine ⟨fun hw => hi w hw, ?_⟩
  intro hv
  unfold effState at hv
  revert hv
  cases hfly : mapGet s.flyweightCells (cellKey i j) with
  | some c =>
      intro hv
      exact hf (cellKey i j, c) (mapGet_mem hfly) v hv
  | none =>
      cases hmem : mapGet s.cellMementos (cellKey i j) with
      | some m =>
          intro hv
          exact hm (cellKey i j, m) (mapGet_mem hmem) v hv
      | none =>
          intro hv
          exact hnat i j v hv

/-- Witness for C4 (amended) at a concrete input: the all-ones generator and
the fresh state. -/
theorem reachable_tokens_pow2_witness :
    ((initState).playerInventory = some 1 → IsPow2 1) ∧
    (effState (fun _ _ => some 1) initState 0 0 = some 1 → IsPow2 1) := by
  exact reachable_tokens_pow2 (fun _ _ => some 1)
    (fun i j v hv => by
      injection hv with hv
      exact hv ▸ ⟨0, by norm_num⟩)
    initState Relation.ReflTransGen.refl 1 0 0 1


/-! ## C6: the deterministic generator (main.ts lines 621-626)

The hash `luck` itself lives in `_luck.ts`, which is not among the source
files; the spec describes it as a deterministic, stateless hash from a string
key into [0, 1).  `naturalSpec` below states the spec's generator clause in
the spec's own words, to be compared with `naturalTok`, which was translated
from the source lines; the hash stays an explicit function parameter, so
"pure function of (i, j), across process restarts" becomes: any two
extensionally equal hash functions produce the same token for every cell. -/

/-- Modelled from the spec: "A cell has a token iff
`hash(i,j,"hasToken") < spawnProbability` (0.3).  If present, the token value
is chosen by `floor(hash(i,j,"token") * 3)` indexing into {1,2,4}." -/
def naturalSpec (hash : String → ℚ) (i j : ℤ) : Option ℚ :=
  if hash (luckKey i j "hasToken") < 3/10 then
    some (([1, 2, 4] : List ℚ).getD (⌊hash (luckKey i j "token") * 3⌋).toNat 0)
  else
    none

/-- C6: the natural-token generator is a pure function of the cell id: it
consults only the hash of the two salted key strings of (i, j), so any two
extensionally equal hash functions (the same deterministic hash across two
process runs) give identical output for every cell, and the output follows
the spec formula: a token exists iff `hash(i,j,"hasToken") < 0.3`, with value
`[1,2,4][floor(hash(i,j,"token") * 3)]`. -/
theorem natural_pure (luck luck2 : String → ℚ) (i j : ℤ)
    (h : ∀ k, luck k = luck2 k) :
    naturalTok luck i j = naturalTok luck2 i j ∧
    naturalTok luck i j = naturalSpec luck i j := by
  constructor
  · simp only [naturalTok, h]
  · rfl

/-- A concrete stand-in hash for the C6 witness. -/
def lucky : String → ℚ := fun k => (k.length : ℚ) / 20

/-- Witness for C6 at a concrete hash and cell. -/
theorem natural_pure_witness :
    (∀ k : String, lucky k = lucky k) ∧
    (naturalTok lucky 0 0 = naturalTok lucky 0 0 ∧
     naturalTok lucky 0 0 = naturalSpec lucky 0 0) :=
  ⟨fun _ => rfl, natural_pure lucky lucky 0 0 (fun _ => rfl)⟩


/-! ## Persistence (main.ts lines 467-477 and 533-566)

`saveGameState` serializes `{ playerInventory, playerPosition: {lat, lng},
cellMementos: Array.from(entries) }` into localStorage under "gameState";
`loadGameState` reads it back inside a try/catch.  JSON is modelled by the
inductive `Jval`; `JSON.stringify` / `JSON.parse` on the values the program
writes is the identity on `Jval`, so the durable store holds
`Option (Option Jval)`: `none` = no entry, `some none` = an entry whose text
fails to parse (`JSON.parse` throws), `some (some g)` = an entry parsing to
`g`.  The string key `"i,j"` of the mementos map is modelled by the pair
(i, j) itself (both encodings of the key are injective).  The source stores
each deserialized memento unchecked; entries are decoded here, and an entry
without the `CellMemento` shape is modelled as the thrown `TypeError` of the
source's destructuring (the difference is only in which garbage states the
error paths carry, which no theorem below relies on). -/

/-- A JSON value. -/
inductive Jval where
  | null : Jval
  | bool (b : Bool) : Jval
  | num (q : ℚ) : Jval
  | str (s : String) : Jval
  | arr (elems : List Jval) : Jval
  | obj (fields : List (String × Jval)) : Jval

/-- Key lookup in a JSON object's field list. -/
def jLookup : List (String × Jval) → String → Option Jval
  | [], _ => none
  | p :: rest, key => if p.1 = key then some p.2 else jLookup rest key

/-- JS property access `g.key`: `none` models `undefined`. -/
def jField : Jval → String → Option Jval
  | Jval.obj fields, key => jLookup fields key
  | _, _ => none

/-- JS truthiness of a parsed JSON value. -/
def jTruthy : Jval → Bool
  | Jval.null => false
  | Jval.bool b => b
  | Jval.num q => decide (q ≠ 0)
  | Jval.str s => decide (s ≠ "")
  | Jval.arr _ => true
  | Jval.obj _ => true

/-- Whether the parsed root is JSON `null` (property access on it throws). -/
def isNull : Jval → Bool
  | Jval.null => true
  | _ => false

/-- `playerInventory` as serialized: a number, or `null` when empty. -/
def encodeInv : Option ℚ → Jval
  | none => Jval.null
  | some v => Jval.num v

/-- A `CellMemento` as serialized. -/
def encodeMemento (m : CellMemento) : Jval :=
  Jval.obj [("i", Jval.num (m.i : ℚ)), ("j", Jval.num (m.j : ℚ)),
    ("token", encodeInv m.token)]

/-- One `[key, memento]` entry of `Array.from(cellMementos.entries())`. -/
def encodeEntry (p : CellKey × CellMemento) : Jval :=
  Jval.arr [Jval.arr [Jval.num (p.1.1 : ℚ), Jval.num (p.1.2 : ℚ)],
    encodeMemento p.2]

/-- `saveGameState` (lines 467-477): the snapshot written to localStorage. -/
def saveGameState (s : GameState) : Jval :=
  Jval.obj
    [("playerInventory", encodeInv s.playerInventory),
     ("playerPosition", Jval.obj
        [("lat", Jval.num s.playerPos.1), ("lng", Jval.num s.playerPos.2)]),
     ("cellMementos", Jval.arr (s.cellMementos.map encodeEntry))]

/-- The inventory value the load assigns: a JSON number restores a token,
`null` and `undefined` (and any non-numeric value) restore the empty slot. -/
def decodeInv : Option Jval → Option ℚ
  | some (Jval.num v) => some v
  | _ => none

/-- A JSON number read back as an integer. -/
def decodeInt : Jval → Option ℤ
  | Jval.num q => if q.den = 1 then some q.num else none
  | _ => none

/-- The serialized map key read back as a `CellKey`. -/
def decodeKey : Jval → Option CellKey
  | Jval.arr [a, b] =>
      match decodeInt a, decodeInt b with
      | some i, some j => some (i, j)
      | _, _ => none
  | _ => none

/-- A serialized memento read back. -/
def decodeMemento (m : Jval) : Option CellMemento :=
  match jField m "i", jField m "j" with
  | some a, some b =>
      match decodeInt a, decodeInt b with
      | some i, some j => some ⟨i, j, decodeInv (jField m "token")⟩
      | _, _ => none
  | _, _ => none

/-- One `[key, memento]` entry read back. -/
def decodeEntry : Jval → Option (CellKey × CellMemento)
  | Jval.arr [k, m] =>
      match decodeKey k, decodeMemento m with
      | some key, some mem => some (key, mem)
      | _, _ => none
  | _ => none

/-- Decode a prefix of the entry list: the decoded entries up to the first
malformed one, and whether the whole list decoded (the `forEach` either runs
to completion or throws at the first bad entry). -/
def decodeEntries : List Jval → List (CellKey × CellMemento) × Bool
  | [] => ([], true)
  | e :: rest =>
      match decodeEntry e with
      | some p => (p :: (decodeEntries rest).1, (decodeEntries rest).2)
      | none => ([], false)

/-- `cellMementos.clear()` followed by one `cellMementos.set` per entry. -/
def insertAll (l : List (CellKey × CellMemento)) : List (CellKey × CellMemento) :=
  l.foldl (fun acc p => mapSet acc p.1 p.2) []

/-- The `if (gameState.cellMementos)` block of `loadGameState` (lines
553-561): a truthy value first clears the map; a non-array then throws at
`.forEach`, an array is inserted entry by entry. -/
def loadMementos (g : Jval) (s2 : GameState) : Except GameState GameState :=
  match jField g "cellMementos" with
  | some m =>
      if jTruthy m then
        match m with
        | Jval.arr entries =>
            if (decodeEntries entries).2 then
              Except.ok {s2 with cellMementos := insertAll (decodeEntries entries).1}
            else
              Except.error {s2 with cellMementos := insertAll (decodeEntries entries).1}
        | _ => Except.error {s2 with cellMementos := []}
      else Except.ok s2
  | none => Except.ok s2

/-- The `if (gameState.playerPosition)` block (lines 541-549):
`leaflet.latLng` throws unless both `lat` and `lng` are numbers. -/
def loadPosition (g : Jval) (s1 : GameState) : Except GameState GameState :=
  match jField g "playerPosition" with
  | some p =>
      if jTruthy p then
        match jField p "lat", jField p "lng" with
        | some (Jval.num lat), some (Jval.num lng) =>
            loadMementos g {s1 with playerPos := (lat, lng)}
        | _, _ => Except.error s1
      else loadMementos g s1
  | none => loadMementos g s1

/-- The try-block body of `loadGameState` on a parsed snapshot `g`:
`Except.error` is a thrown exception, carrying the partially updated state
(`playerInventory` is assigned unconditionally, before either guard). -/
def loadBody (g : Jval) (s : GameState) : Except GameState GameState :=
  if isNull g then Except.error s
  else loadPosition g
    {s with playerInventory := decodeInv (jField g "playerInventory")}

/-- `loadGameState` (lines 533-566): returns the store's new content and the
resulting state.  No stored entry does nothing; a stored entry that fails to
parse throws inside `JSON.parse`, and the catch removes the entry with the
state untouched; a parsed snapshot runs the body, and only a thrown body
removes the entry. -/
def loadGameState (store : Option (Option Jval)) (s : GameState) :
    Option (Option Jval) × GameState :=
  match store with
  | none => (none, s)
  | some none => (none, s)
  | some (some g) =>
      match loadBody g s with
      | Except.ok s2 => (some (some g), s2)
      | Except.error s2 => (none, s2)


theorem decodeInv_encodeInv (x : Option ℚ) : decodeInv (some (encodeInv x)) = x := by
  cases x <;> rfl

theorem decodeInt_intCast (n : ℤ) : decodeInt (Jval.num (n : ℚ)) = some n := by
  show (if ((n : ℚ)).den = 1 then some ((n : ℚ)).num else none) = some n
  rw [Rat.den_intCast, Rat.num_intCast]
  simp

theorem decodeMemento_encodeMemento (m : CellMemento) :
    decodeMemento (encodeMemento m) = some m := by
  have hi : jField (encodeMemento m) "i" = some (Jval.num (m.i : ℚ)) := rfl
  have hj : jField (encodeMemento m) "j" = some (Jval.num (m.j : ℚ)) := rfl
  have ht : jField (encodeMemento m) "token" = some (encodeInv m.token) := rfl
  unfold decodeMemento
  rw [hi, hj, ht, decodeInv_encodeInv]
  simp only [decodeInt_intCast]

theorem decodeEntry_encodeEntry (p : CellKey × CellMemento) :
    decodeEntry (encodeEntry p) = some p := by
  show (match decodeKey (Jval.arr [Jval.num (p.1.1 : ℚ), Jval.num (p.1.2 : ℚ)]),
      decodeMemento (encodeMemento p.2) with
    | some key, some mem => some (key, mem)
    | _, _ => none) = some p
  rw [decodeMemento_encodeMemento]
  have hk : decodeKey (Jval.arr [Jval.num (p.1.1 : ℚ), Jval.num (p.1.2 : ℚ)])
      = some (p.1.1, p.1.2) := by
    unfold decodeKey
    simp only [decodeInt_intCast]
  rw [hk]

theorem decodeEntries_map (l : List (CellKey × CellMemento)) :
    decodeEntries (l.map encodeEntry) = (l, true) := by
  induction l with
  | nil => rfl
  | cons p rest ih =>
      show (match decodeEntry (encodeEntry p) with
        | some q => (q :: (decodeEntries (rest.map encodeEntry)).1,
            (decodeEntries (rest.map encodeEntry)).2)
        | none => ([], false)) = (p :: rest, true)
      rw [decodeEntry_encodeEntry, ih]


theorem mapSet_eq_append {K V : Type} [DecidableEq K] (l : List (K × V))
    (k : K) (v : V) (h : mapGet l k = none) : mapSet l k v = l ++ [(k, v)] := by
  induction l with
  | nil => rfl
  | cons p rest ih =>
      rw [mapGet_cons] at h
      by_cases hp : p.1 = k
      · rw [if_pos hp] at h
        exact absurd h (by simp)
      · rw [if_neg hp] at h
        show (if p.1 = k then (k, v) :: rest else p :: mapSet rest k v) = _
        rw [if_neg hp, ih h]
        rfl

theorem foldl_mapSet_eq_append {K V : Type} [DecidableEq K]
    (l : List (K × V)) : ∀ (acc : List (K × V)),
    (l.map Prod.fst).Nodup → (∀ p ∈ l, mapGet acc p.1 = none) →
    l.foldl (fun a p => mapSet a p.1 p.2) acc = acc ++ l := by
  induction l with
  | nil =>
      intro acc _ _
      simp
  | cons p rest ih =>
      intro acc hnd hdis
      rw [List.map_cons, List.nodup_cons] at hnd
      rw [List.foldl_cons,
        mapSet_eq_append acc p.1 p.2 (hdis p (List.mem_cons_self p rest)),
        ih (acc ++ [(p.1, p.2)]) hnd.2 ?_]
      · simp
      · intro q hq
        have h1 : mapGet acc q.1 = none := hdis q (List.mem_cons_of_mem p hq)
        rw [mapGet_eq_none_iff] at h1 ⊢
        rw [List.map_append, List.mem_append]
        rintro (h2 | h2)
        · exact h1 h2
        · simp only [List.map_cons, List.map_nil, List.mem_singleton] at h2
          exact hnd.1 (h2 ▸ List.mem_map_of_mem Prod.fst hq)

theorem insertAll_of_nodup (l : List (CellKey × CellMemento))
    (h : (l.map Prod.fst).Nodup) : insertAll l = l := by
  unfold insertAll
  rw [foldl_mapSet_eq_append l [] h (fun p _ => rfl)]
  rfl

/-- C8: persistence fidelity.  Saving a state and loading the saved snapshot
into any running state reproduces the saved inventory, continuous position,
and override-map contents exactly, and keeps the stored snapshot in place.
The hypothesis (the memento map has no duplicate keys) holds of every map the
program builds, since JS `Map` keys are unique. -/
theorem save_load_roundtrip (s t : GameState)
    (h : (s.cellMementos.map Prod.fst).Nodup) :
    (loadGameState (some (some (saveGameState s))) t).1 =
      some (some (saveGameState s)) ∧
    (loadGameState (some (some (saveGameState s))) t).2.playerInventory =
      s.playerInventory ∧
    (loadGameState (some (some (saveGameState s))) t).2.playerPos =
      s.playerPos ∧
    (loadGameState (some (some (saveGameState s))) t).2.cellMementos =
      s.cellMementos := by
  have hmem : ∀ u : GameState, loadMementos (saveGameState s) u =
      Except.ok {u with cellMementos := s.cellMementos} := by
    intro u
    have h1 : loadMementos (saveGameState s) u =
        (if (decodeEntries (s.cellMementos.map encodeEntry)).2 then
          Except.ok {u with cellMementos := insertAll (decodeEntries (s.cellMementos.map encodeEntry)).1}
        else
          Except.error {u with cellMementos := insertAll (decodeEntries (s.cellMementos.map encodeEntry)).1}) := rfl
    rw [h1, decodeEntries_map]
    simp only [if_true]
    rw [insertAll_of_nodup s.cellMementos h]
  have hbody : loadBody (saveGameState s) t =
      Except.ok {t with playerInventory := s.playerInventory, playerPos := s.playerPos, cellMementos := s.cellMementos} := by
    have h2 : loadBody (saveGameState s) t =
        loadMementos (saveGameState s) {t with playerInventory := decodeInv (some (encodeInv s.playerInventory)), playerPos := s.playerPos} := rfl
    rw [h2, decodeInv_encodeInv]
    exact hmem _
  have hload : loadGameState (some (some (saveGameState s))) t =
      (some (some (saveGameState s)),
       {t with playerInventory := s.playerInventory, playerPos := s.playerPos, cellMementos := s.cellMementos}) := by
    have h3 : loadGameState (some (some (saveGameState s))) t =
        (match loadBody (saveGameState s) t with
          | Except.ok s2 => (some (some (saveGameState s)), s2)
          | Except.error s2 => (none, s2)) := rfl
    rw [h3, hbody]
  exact ⟨by rw [hload], by rw [hload], by rw [hload], by rw [hload]⟩

/-- The spec's concrete persistence scenario: inventory 4, position
(36.9979, -122.0570), one override at (0, 0) holding token 8. -/
def snapshotScenario : GameState :=
  { playerInventory := some 4
    playerPos := (369979/10000, -1220570/10000)
    flyweightCells := []
    cellMementos := [(cellKey 0 0, ⟨0, 0, some 8⟩)] }

/-- Witness for C8 at the spec's concrete scenario. -/
theorem save_load_roundtrip_witness :
    (snapshotScenario.cellMementos.map Prod.fst).Nodup ∧
    ((loadGameState (some (some (saveGameState snapshotScenario))) initState).1 =
      some (some (saveGameState snapshotScenario)) ∧
     (loadGameState (some (some (saveGameState snapshotScenario)))
        initState).2.playerInventory = snapshotScenario.playerInventory ∧
     (loadGameState (some (some (saveGameState snapshotScenario)))
        initState).2.playerPos = snapshotScenario.playerPos ∧
     (loadGameState (some (some (saveGameState snapshotScenario)))
        initState).2.cellMementos = snapshotScenario.cellMementos) :=
  ⟨by decide, save_load_roundtrip snapshotScenario initState (by decide)⟩


/-- Modelled from the spec: a snapshot is well-formed when it has the saved
shape: `playerInventory` a number or `null`, `playerPosition` an object with
numeric `lat` and `lng`, and `cellMementos` an array of `[key, memento]`
entries of the right shape. -/
def WellFormedSnapshot (g : Jval) : Bool :=
  (match jField g "playerInventory" with
    | some Jval.null => true
    | some (Jval.num _) => true
    | _ => false) &&
  (match jField g "playerPosition" with
    | some p =>
        (match jField p "lat", jField p "lng" with
          | some (Jval.num _), some (Jval.num _) => true
          | _, _ => false)
    | none => false) &&
  (match jField g "cellMementos" with
    | some (Jval.arr l) => l.all (fun e => (decodeEntry e).isSome)
    | _ => false)

/-- C9 as claimed: a present snapshot that fails to parse, and equally any
present snapshot of invalid shape, is treated as absent — the durable store
is cleared and the state is left fresh. -/
def C9Statement : Prop :=
  (∀ s : GameState, loadGameState (some none) s = (none, s)) ∧
  (∀ (g : Jval) (s : GameState), WellFormedSnapshot g = false →
    loadGameState (some (some g)) s = (none, s))

/-- C9 counterexample: the parseable snapshot `{"playerInventory": 7}` has an
invalid shape (no position, no mementos array), yet `loadGameState` applies
it field-wise: the inventory becomes 7, the store keeps the snapshot, and the
state is not fresh.  Only data that fails to `JSON.parse` (or whose try-block
throws) is discarded; shape validation never happens. -/
theorem load_malformed_counterexample : ¬ C9Statement := by
  intro h
  have h2 := h.2 (Jval.obj [("playerInventory", Jval.num 7)]) initState rfl
  have h4 : (some (some (Jval.obj [("playerInventory", Jval.num 7)])) :
      Option (Option Jval)) = none := congrArg Prod.fst h2
  exact Option.noConfusion h4

/-- C9 (amended): the absent-snapshot and unparseable-snapshot paths behave
as specified — no entry leaves everything unchanged, and an entry whose text
fails to parse is removed from the store with the state untouched; a parsed
snapshot never crashes the load: the store either keeps the snapshot (body
ran to completion) or drops it (the body threw and the catch cleaned up).
Shape-invalid but parseable snapshots are applied field-wise instead of
being discarded (see the counterexample). -/
theorem load_error_handling (s : GameState) (g : Jval) :
    loadGameState none s = (none, s) ∧
    loadGameState (some none) s = (none, s) ∧
    ((loadGameState (some (some g)) s).1 = some (some g) ∨
     (loadGameState (some (some g)) s).1 = none) := by
  refine ⟨rfl, rfl, ?_⟩
  have h0 : loadGameState (some (some g)) s =
      (match loadBody g s with
        | Except.ok s2 => (some (some g), s2)
        | Except.error s2 => (none, s2)) := rfl
  rw [h0]
  cases hb : loadBody g s with
  | ok s2 => exact Or.inl rfl
  | error s2 => exact Or.inr rfl

end WorldOfBits
